import Mathlib

/-!
Verification of `avaropoint/converter` (Go): a shallow embedding of the
external-image inlining pipeline (`InlineExternalImages`, `fetchImage`,
`isPrivateHost`, `imageContentType` in the `formats` package) and of the
HTTP-handler helpers (`handleConvert`, `handleFile`, `safeDisposition`,
`guessType`, `contentType` in `cmd/converter/server.go`), together with
theorems settling the frozen claims about them.

HTML buffers are embedded as `List Char` (Go's regexp package operates on
UTF-8 runes); byte payloads are `List Nat`.
-/

namespace Converter

/-! ## The regex imgSrcRe

The Go code compiles the regular expression
`(<img\b[^>]*?\bsrc=")([^"]+)(")` as `imgSrcRe` and rewrites with
`ReplaceAllFunc` (leftmost, non-overlapping matches, leftmost-first
submatch semantics).  We embed the matcher as an executable scanner with
exactly those semantics:

* `\b` is RE2's ASCII word boundary (word chars `[0-9A-Za-z_]`);
* `[^>]*?` is lazy: the shortest middle such that the remainder matches,
  retrying longer middles on failure (leftmost-first);
* `[^"]+` is greedy up to the first `"` and must be non-empty.
-/

/-- ASCII word character, as used by RE2's `\b`. -/
def wordChar (c : Char) : Bool :=
  c.isAlphanum || c == '_'

/-- `startsWithL p s` is true iff `p` is an initial segment of `s`
(embedding of `strings.HasPrefix` / anchored literal matching). -/
def startsWithL : List Char → List Char → Bool
  | [], _ => true
  | _ :: _, [] => false
  | a :: as, b :: bs => a == b && startsWithL as bs

/-- The literal `src="` that terminates the lazy middle of the regex. -/
def srcQuote : List Char := ['s', 'r', 'c', '=', '"']

/-- Split a char list at its first `"`; `none` if there is no `"`. -/
def splitAtQuote : List Char → Option (List Char × List Char)
  | [] => none
  | c :: t =>
    if c = '"' then some ([], t)
    else (splitAtQuote t).map fun p => (c :: p.1, p.2)

/-- The `([^"]+)(")` tail of the regex: a non-empty run of non-quote
characters followed by a closing quote.  Returns the captured group 2
and the remainder after the closing quote. -/
def takeUrl (u : List Char) : Option (List Char × List Char) :=
  match splitAtQuote u with
  | none => none
  | some (url, rest) => if url = [] then none else some (url, rest)

/-- The `[^>]*?\bsrc="([^"]+)(")` part.  `m` is the middle consumed so far
(non-empty: the `\b` after `img` forces at least one non-word char), `prev`
its last character.  At each position we first try to finish the match
(`\b` then `src="` then the url part); on failure we extend the lazy middle
by one more non-`>` character. -/
def scanMid : List Char → Char → List Char → Option (List Char × List Char × List Char)
  | _, _, [] => none
  | m, prev, c :: t =>
    if !wordChar prev && startsWithL srcQuote (c :: t) then
      match takeUrl ((c :: t).drop 5) with
      | some (url, rest) => some (m, url, rest)
      | none => if c = '>' then none else scanMid (m ++ [c]) c t
    else if c = '>' then none else scanMid (m ++ [c]) c t

/-- The literal `<img`. -/
def imgLit : List Char := ['<', 'i', 'm', 'g']

/-- Anchored match of the whole regex at the start of `s`.  On success
returns (group 1, group 2, remainder after group 3); group 3 is always
`"`. -/
def matchImg : List Char → Option (List Char × List Char × List Char)
  | '<' :: 'i' :: 'm' :: 'g' :: t =>
    match t with
    | [] => none
    | c :: t' =>
      if wordChar c || c == '>' then none
      else (scanMid [c] c t').map fun r => (imgLit ++ r.1 ++ srcQuote, r.2.1, r.2.2)
  | _ => none

/-- Leftmost match: tries `matchImg` at every position, returning the
unmatched leading segment, group 1, group 2 and the remainder after the
match (`FindSubmatchIndex` semantics used by `ReplaceAllFunc`). -/
def findImgMatch : List Char → Option (List Char × List Char × List Char × List Char)
  | [] => none
  | c :: t =>
    match matchImg (c :: t) with
    | some (g, u, r) => some ([], g, u, r)
    | none => (findImgMatch t).map fun q => (c :: q.1, q.2.1, q.2.2.1, q.2.2.2)

/-! ### Reconstruction lemmas for the scanner -/

theorem splitAtQuote_eq (u url rest : List Char) (h : splitAtQuote u = some (url, rest)) :
    u = url ++ '"' :: rest ∧ '"' ∉ url := by
  induction u generalizing url rest with
  | nil => simp [splitAtQuote] at h
  | cons c t ih =>
    by_cases hc : c = '"'
    · subst hc
      simp [splitAtQuote] at h
      obtain ⟨h1, h2⟩ := h
      subst h1; subst h2; simp
    · simp only [splitAtQuote, hc, if_neg, ite_false, Option.map_eq_some'] at h
      obtain ⟨⟨p1, p2⟩, hp, heq⟩ := h
      cases heq
      obtain ⟨hu, hnq⟩ := ih p1 p2 hp
      constructor
      · rw [hu]; simp
      · intro hmem
        rcases List.mem_cons.mp hmem with h1 | h2
        · exact hc h1.symm
        · exact hnq h2

theorem takeUrl_eq (u url rest : List Char) (h : takeUrl u = some (url, rest)) :
    u = url ++ '"' :: rest ∧ url ≠ [] ∧ '"' ∉ url := by
  unfold takeUrl at h
  cases hs : splitAtQuote u with
  | none => rw [hs] at h; simp at h
  | some p =>
    obtain ⟨p1, p2⟩ := p
    rw [hs] at h
    by_cases hn : p1 = []
    · simp [hn] at h
    · simp only [hn, ite_false, if_neg, Option.some.injEq] at h
      have h1 : p1 = url := congrArg Prod.fst h
      have h2 : p2 = rest := congrArg Prod.snd h
      subst h1; subst h2
      obtain ⟨hu, hnq⟩ := splitAtQuote_eq u p1 p2 hs
      exact ⟨hu, hn, hnq⟩

theorem splitAtQuote_append (x z : List Char) (hx : '"' ∈ x) :
    splitAtQuote (x ++ z) = (splitAtQuote x).map fun p => (p.1, p.2 ++ z) := by
  induction x with
  | nil => simp at hx
  | cons c t ih =>
    by_cases hc : c = '"'
    · subst hc; simp [splitAtQuote]
    · have ht : '"' ∈ t := by
        cases hx with
        | head => exact absurd rfl hc
        | tail _ h => exact h
      simp [splitAtQuote, hc, ih ht]
      cases splitAtQuote t <;> simp

theorem takeUrl_append (x z z' : List Char) (hx : '"' ∈ x) :
    (takeUrl (x ++ z)).isSome = (takeUrl (x ++ z')).isSome := by
  unfold takeUrl
  rw [splitAtQuote_append x z hx, splitAtQuote_append x z' hx]
  cases splitAtQuote x with
  | none => simp
  | some p => by_cases hp : p.1 = [] <;> simp [hp]

theorem splitAtQuote_closed (url rest : List Char) (hq : '"' ∉ url) :
    splitAtQuote (url ++ '"' :: rest) = some (url, rest) := by
  induction url with
  | nil => simp [splitAtQuote]
  | cons c t ih =>
    have hc : c ≠ '"' := fun h => hq (h ▸ List.mem_cons_self c t)
    have ht : '"' ∉ t := fun h => hq (List.mem_cons_of_mem c h)
    simp [splitAtQuote, hc, ih ht]

theorem takeUrl_closed (url rest : List Char) (hn : url ≠ []) (hq : '"' ∉ url) :
    takeUrl (url ++ '"' :: rest) = some (url, rest) := by
  unfold takeUrl
  rw [splitAtQuote_closed url rest hq]
  simp [hn]

theorem startsWithL_iff (p s : List Char) :
    startsWithL p s = true ↔ ∃ z, s = p ++ z := by
  induction p generalizing s with
  | nil => simp [startsWithL]
  | cons a as ih =>
    cases s with
    | nil =>
      simp [startsWithL]
    | cons b bs =>
      simp only [startsWithL, Bool.and_eq_true, beq_iff_eq, ih bs]
      constructor
      · rintro ⟨rfl, z, rfl⟩; exact ⟨z, rfl⟩
      · rintro ⟨z, hz⟩
        rw [List.cons_append] at hz
        injection hz with h1 h2
        exact ⟨h1.symm, z, h2⟩

theorem startsWithL_stable (p x y z : List Char) (h : p.length ≤ x.length) :
    startsWithL p (x ++ y) = startsWithL p (x ++ z) := by
  induction p generalizing x with
  | nil => simp [startsWithL]
  | cons a as ih =>
    cases x with
    | nil => simp at h
    | cons b bs =>
      simp only [List.cons_append, startsWithL]
      have hle : as.length ≤ bs.length := by
        simpa using Nat.le_of_succ_le_succ h
      simp only [List.append_eq]
      rw [ih bs hle]

/-- Reconstruction: a successful `scanMid` run consumed a `>`-free extension
`e` of the middle, then the literal, a clean url group and its closing
quote; the character just before the literal satisfies the word boundary. -/
theorem scanMid_eq (t : List Char) :
    ∀ m prev M url rest, scanMid m prev t = some (M, url, rest) →
    ∃ e, M = m ++ e ∧ t = e ++ srcQuote ++ url ++ '"' :: rest ∧
      url ≠ [] ∧ '"' ∉ url ∧ wordChar (e.getLastD prev) = false := by
  induction t with
  | nil => intro m prev M url rest h; simp [scanMid] at h
  | cons c t ih =>
    intro m prev M url rest h
    rw [scanMid] at h
    by_cases hb : (!wordChar prev && startsWithL srcQuote (c :: t)) = true
    · rw [if_pos hb] at h
      cases htu : takeUrl ((c :: t).drop 5) with
      | some p =>
        obtain ⟨u0, r0⟩ := p
        rw [htu] at h
        have hM : m = M ∧ u0 = url ∧ r0 = rest := by
          simpa using h
        obtain ⟨hM1, hM2, hM3⟩ := hM
        subst hM1; subst hM2; subst hM3
        obtain ⟨z, hz⟩ := (startsWithL_iff srcQuote (c :: t)).mp
          (Bool.and_elim_right hb)
        have hz5 : (c :: t).drop 5 = z := by
          rw [hz]; exact List.drop_left' rfl
        rw [hz5] at htu
        obtain ⟨hzu, hun, huq⟩ := takeUrl_eq z u0 r0 htu
        refine ⟨[], by simp, ?_, hun, huq, ?_⟩
        · rw [hz, hzu]; simp
        · simpa using Bool.and_elim_left hb
      | none =>
        rw [htu] at h
        by_cases hgt : c = '>'
        · rw [if_pos hgt] at h; simp at h
        · rw [if_neg hgt] at h
          obtain ⟨e, he1, he2, he3, he4, he5⟩ := ih (m ++ [c]) c M url rest h
          refine ⟨c :: e, by simp [he1], by simp [he2], he3, he4, ?_⟩
          rwa [List.getLastD_cons]
    · rw [if_neg hb] at h
      by_cases hgt : c = '>'
      · rw [if_pos hgt] at h; simp at h
      · rw [if_neg hgt] at h
        obtain ⟨e, he1, he2, he3, he4, he5⟩ := ih (m ++ [c]) c M url rest h
        refine ⟨c :: e, by simp [he1], by simp [he2], he3, he4, ?_⟩
        rwa [List.getLastD_cons]

/-- Reconstruction for an anchored match: group 1 is `<img`, a non-empty
middle and the literal `src="`; the input decomposes as group 1, group 2,
the closing quote and the remainder, and the middle ends in a non-word
character (the second word boundary). -/
theorem matchImg_eq (s g url rest : List Char) (h : matchImg s = some (g, url, rest)) :
    ∃ m, m ≠ [] ∧ g = imgLit ++ m ++ srcQuote ∧
      s = g ++ url ++ '"' :: rest ∧ url ≠ [] ∧ '"' ∉ url ∧
      ∀ d, wordChar (m.getLastD d) = false := by
  unfold matchImg at h
  split at h
  case h_2 => exact absurd h (by simp)
  case h_1 t =>
    split at h
    case h_1 => exact absurd h (by simp)
    case h_2 c t' =>
      by_cases hw : (wordChar c || c == '>') = true
      · rw [if_pos hw] at h; exact absurd h (by simp)
      · rw [if_neg hw] at h
        rw [Option.map_eq_some'] at h
        obtain ⟨⟨M, u0, r0⟩, hsm, heq⟩ := h
        rw [Prod.mk.injEq, Prod.mk.injEq] at heq
        obtain ⟨hg, hu, hr⟩ := heq
        have hu' : u0 = url := hu
        have hr' : r0 = rest := hr
        rw [hu', hr'] at hsm
        have hg' : imgLit ++ M ++ srcQuote = g := hg
        obtain ⟨e, he1, he2, he3, he4, he5⟩ := scanMid_eq t' [c] c M url rest hsm
        refine ⟨c :: e, by simp, ?_, ?_, he3, he4, ?_⟩
        · rw [← hg', he1]; simp
        · rw [← hg', he1, he2]; simp [imgLit]
        · intro d
          rw [List.getLastD_cons]
          exact he5

/-- Reconstruction for the leftmost search: the input decomposes around
the match, and `matchImg` fails at every position inside the unmatched
leading segment. -/
theorem findImgMatch_eq (s : List Char) :
    ∀ p g url rest, findImgMatch s = some (p, g, url, rest) →
      s = p ++ g ++ url ++ '"' :: rest ∧
      (∀ i, i < p.length → matchImg ((p ++ g ++ url ++ '"' :: rest).drop i) = none) ∧
      matchImg (g ++ url ++ '"' :: rest) = some (g, url, rest) := by
  induction s with
  | nil => intro p g url rest h; simp [findImgMatch] at h
  | cons c t ih =>
    intro p g url rest h
    rw [findImgMatch] at h
    cases hm : matchImg (c :: t) with
    | some q =>
      obtain ⟨g0, u0, r0⟩ := q
      rw [hm] at h
      rw [Option.some.injEq, Prod.mk.injEq, Prod.mk.injEq, Prod.mk.injEq] at h
      obtain ⟨h1, h2, h3, h4⟩ := h
      subst h1; subst h2; subst h3; subst h4
      obtain ⟨m, _, _, hs, _, _, _⟩ := matchImg_eq _ _ _ _ hm
      refine ⟨by simpa using hs, ?_, by rw [← hs]; exact hm⟩
      intro i hi; simp at hi
    | none =>
      rw [hm, Option.map_eq_some'] at h
      obtain ⟨⟨p1, g1, u1, r1⟩, hf, heq⟩ := h
      rw [Prod.mk.injEq, Prod.mk.injEq, Prod.mk.injEq] at heq
      obtain ⟨hp, hg, hu, hr⟩ := heq
      have hg' : g1 = g := hg
      have hu' : u1 = url := hu
      have hr' : r1 = rest := hr
      rw [hg', hu', hr'] at hf
      have hp' : c :: p1 = p := hp
      obtain ⟨ht, hnone, hmatch⟩ := ih p1 g url rest hf
      refine ⟨?_, ?_, hmatch⟩
      · rw [← hp', ht]; simp
      · intro i hi
        rw [← hp']
        cases i with
        | zero =>
          rw [ht] at hm
          simpa using hm
        | succ j =>
          have hj : j < p1.length := by
            rw [← hp'] at hi; simpa using hi
          simpa using hnone j hj

/-- The remainder after a match is strictly shorter than the input
(used for termination of the rewrite loop). -/
theorem findImgMatch_shrink (s p g url rest : List Char)
    (h : findImgMatch s = some (p, g, url, rest)) : rest.length < s.length := by
  obtain ⟨hs, _, _⟩ := findImgMatch_eq s p g url rest h
  rw [hs]
  simp [Nat.lt_succ_iff]
  omega

/-! ## base64.StdEncoding.EncodeToString -/

/-- The standard base64 alphabet (Go's `encodeStd`). -/
def b64Alphabet : List Char :=
  "ABCDEFGHIJKLMNOPQRSTUVWXYZabcdefghijklmnopqrstuvwxyz0123456789+/".data

/-- Index into the standard alphabet. -/
def b64c (n : Nat) : Char := b64Alphabet.getD n 'A'

/-- `base64.StdEncoding.EncodeToString`: three input bytes become four
output characters; a tail of one or two bytes is padded with `=`. -/
def base64Encode : List Nat → List Char
  | [] => []
  | [a] => [b64c (a / 4), b64c (a % 4 * 16), '=', '=']
  | [a, b] => [b64c (a / 4), b64c (a % 4 * 16 + b / 16), b64c (b % 16 * 4), '=']
  | a :: b :: c :: rest =>
    b64c (a / 4) :: b64c (a % 4 * 16 + b / 16) :: b64c (b % 16 * 4 + c / 64) ::
      b64c (c % 64) :: base64Encode rest

theorem b64c_mem (n : Nat) : b64c n ∈ b64Alphabet := by
  unfold b64c
  by_cases h : n < b64Alphabet.length
  · rw [List.getD_eq_getElem _ _ h]
    exact List.getElem_mem h
  · rw [List.getD_eq_default _ _ (Nat.le_of_not_lt h)]
    decide

theorem base64Encode_mem (l : List Nat) (c : Char) (hc : c ∈ base64Encode l) :
    c ∈ b64Alphabet ∨ c = '=' := by
  induction l using base64Encode.induct with
  | case1 => simp [base64Encode] at hc
  | case2 a =>
    simp only [base64Encode, List.mem_cons, List.not_mem_nil, or_false] at hc
    rcases hc with h | h | h | h
    all_goals first
      | (left; rw [h]; exact b64c_mem _)
      | (right; exact h)
  | case3 a b =>
    simp only [base64Encode, List.mem_cons, List.not_mem_nil, or_false] at hc
    rcases hc with h | h | h | h
    all_goals first
      | (left; rw [h]; exact b64c_mem _)
      | (right; exact h)
  | case4 a b c' rest ih =>
    simp only [base64Encode, List.mem_cons] at hc
    rcases hc with h | h | h | h | h
    · left; rw [h]; exact b64c_mem _
    · left; rw [h]; exact b64c_mem _
    · left; rw [h]; exact b64c_mem _
    · left; rw [h]; exact b64c_mem _
    · exact ih h

theorem base64Encode_no_quote (l : List Nat) : '"' ∉ base64Encode l := by
  intro h
  rcases base64Encode_mem l '"' h with hm | he
  · revert hm; decide
  · exact absurd he (by decide)

/-! ## formats.imageContentType -/

/-- Embedding of `strings.ToLower` (ASCII range, which covers every
character the function is compared against). -/
def toLowerGo (s : String) : String :=
  String.mk (s.data.map fun c => if 'A' ≤ c ∧ c ≤ 'Z' then Char.ofNat (c.toNat + 32) else c)

/-- Contiguous-substring search over char lists. -/
def containsL (needle : List Char) : List Char → Bool
  | [] => startsWithL needle []
  | c :: t => startsWithL needle (c :: t) || containsL needle t

/-- Embedding of `strings.Contains` on the underlying rune sequences. -/
def containsGo (s sub : String) : Bool :=
  containsL sub.data s.data

/-- `formats.imageContentType`: normalize a Content-Type header to one of
the known image MIME types, defaulting to `image/png`. -/
def imageContentType (ct : String) : String :=
  let l := toLowerGo ct
  if containsGo l "png" then "image/png"
  else if containsGo l "jpeg" then "image/jpeg"
  else if containsGo l "jpg" then "image/jpeg"
  else if containsGo l "gif" then "image/gif"
  else if containsGo l "webp" then "image/webp"
  else if containsGo l "svg" then "image/svg+xml"
  else if containsGo l "bmp" then "image/bmp"
  else "image/png"

theorem imageContentType_cases (ct : String) :
    imageContentType ct = "image/png" ∨ imageContentType ct = "image/jpeg" ∨
    imageContentType ct = "image/gif" ∨ imageContentType ct = "image/webp" ∨
    imageContentType ct = "image/svg+xml" ∨ imageContentType ct = "image/bmp" := by
  unfold imageContentType
  dsimp only
  split_ifs <;> simp

theorem imageContentType_no_quote (ct : String) : '"' ∉ (imageContentType ct).data := by
  rcases imageContentType_cases ct with h | h | h | h | h | h
  all_goals rw [h]; decide

/-! ## formats.InlineExternalImages -/

/-- The per-call cache `map[string]string`, keyed by URL.  Go map writes
are embedded as shadowing prepends; the code only ever inserts a key it
has just found absent. -/
abbrev Cache := List (List Char × List Char)

/-- `cache[url]` lookup. -/
def lookupCache : Cache → List Char → Option (List Char)
  | [], _ => none
  | (k, v) :: t, u => if k = u then some v else lookupCache t u

/-- `cache[url] = v`. -/
def insertCache (c : Cache) (u v : List Char) : Cache := (u, v) :: c

/-- The `fetchImage` dependency of the rewrite closure: `none` embeds a
non-nil error, `some (data, contentType)` a nil error. -/
abbrev FetchFn := List Char → Option (List Nat × String)

def httpLit : List Char := "http://".data
def httpsLit : List Char := "https://".data
def dataLit : List Char := "data:".data
def b64SepLit : List Char := ";base64,".data

/-- One step of the rewrite: the body of the `ReplaceAllFunc` closure in
`InlineExternalImages`, applied to a match with group 1 `g` and group 2
(the URL) `u`.  Returns the replacement bytes, the updated cache and the
(ghost) list of URLs passed to `fetchImage` during this step. -/
structure StepResult where
  rep : List Char
  cache : Cache
  fetched : List (List Char)

def processMatch (f : FetchFn) (cache : Cache) (g u : List Char) : StepResult :=
  if !(startsWithL httpLit u || startsWithL httpsLit u) then
    ⟨g ++ u ++ ['"'], cache, []⟩
  else if startsWithL dataLit u then
    ⟨g ++ u ++ ['"'], cache, []⟩
  else
    match lookupCache cache u with
    | some d =>
      if d = [] then ⟨g ++ u ++ ['"'], cache, []⟩ else ⟨g ++ d ++ ['"'], cache, []⟩
    | none =>
      match f u with
      | none => ⟨g ++ u ++ ['"'], insertCache cache u [], [u]⟩
      | some (data, ct) =>
        if data = [] then ⟨g ++ u ++ ['"'], insertCache cache u [], [u]⟩
        else
          let d := dataLit ++ (imageContentType ct).data ++ b64SepLit ++ base64Encode data
          ⟨g ++ d ++ ['"'], insertCache cache u d, [u]⟩

theorem startsWithL_ne_head (a b : Char) (p s : List Char) (h : a ≠ b) :
    startsWithL (a :: p) (b :: s) = false := by
  simp [startsWithL, h]

/-- A URL that passes the http(s) scheme test cannot pass the data: test. -/
theorem http_not_data (u : List Char)
    (h : (startsWithL httpLit u || startsWithL httpsLit u) = true) :
    startsWithL dataLit u = false := by
  rcases Bool.or_eq_true_iff.mp h with h1 | h1
  · obtain ⟨z, hz⟩ := (startsWithL_iff _ _).mp h1
    subst hz
    exact startsWithL_ne_head 'd' 'h' _ _ (by decide)
  · obtain ⟨z, hz⟩ := (startsWithL_iff _ _).mp h1
    subst hz
    exact startsWithL_ne_head 'd' 'h' _ _ (by decide)

/-- Step equation: the closure leaves a non-http(s) src untouched. -/
theorem processMatch_not_http (f : FetchFn) (cache : Cache) (g u : List Char)
    (h : (startsWithL httpLit u || startsWithL httpsLit u) = false) :
    processMatch f cache g u = ⟨g ++ u ++ ['"'], cache, []⟩ := by
  unfold processMatch
  rw [h]
  rfl

/-- Step equation: a cached URL is answered from the cache, fetching
nothing. -/
theorem processMatch_cached (f : FetchFn) (cache : Cache) (g u d : List Char)
    (hh : (startsWithL httpLit u || startsWithL httpsLit u) = true)
    (hd : lookupCache cache u = some d) :
    processMatch f cache g u =
      if d = [] then ⟨g ++ u ++ ['"'], cache, []⟩ else ⟨g ++ d ++ ['"'], cache, []⟩ := by
  unfold processMatch
  rw [hh, http_not_data u hh, hd]
  rfl

/-- Step equation: a cache miss whose fetch errors stores the empty
string and keeps the match unchanged. -/
theorem processMatch_fetch_err (f : FetchFn) (cache : Cache) (g u : List Char)
    (hh : (startsWithL httpLit u || startsWithL httpsLit u) = true)
    (hm : lookupCache cache u = none)
    (hf : f u = none) :
    processMatch f cache g u = ⟨g ++ u ++ ['"'], insertCache cache u [], [u]⟩ := by
  unfold processMatch
  rw [hh, http_not_data u hh, hm, hf]
  rfl

/-- Step equation: a cache miss whose fetch returns no data stores the
empty string and keeps the match unchanged. -/
theorem processMatch_fetch_empty (f : FetchFn) (cache : Cache) (g u : List Char)
    (ct : String)
    (hh : (startsWithL httpLit u || startsWithL httpsLit u) = true)
    (hm : lookupCache cache u = none)
    (hf : f u = some ([], ct)) :
    processMatch f cache g u = ⟨g ++ u ++ ['"'], insertCache cache u [], [u]⟩ := by
  unfold processMatch
  rw [hh, http_not_data u hh, hm, hf]
  rfl

/-- Step equation: a cache miss whose fetch succeeds with data builds the
data URI, substitutes it and caches it. -/
theorem processMatch_fetch_ok (f : FetchFn) (cache : Cache) (g u : List Char)
    (data : List Nat) (ct : String)
    (hh : (startsWithL httpLit u || startsWithL httpsLit u) = true)
    (hm : lookupCache cache u = none)
    (hf : f u = some (data, ct))
    (hne : data ≠ []) :
    processMatch f cache g u =
      ⟨g ++ (dataLit ++ (imageContentType ct).data ++ b64SepLit ++
          base64Encode data) ++ ['"'],
        insertCache cache u (dataLit ++ (imageContentType ct).data ++ b64SepLit ++
          base64Encode data), [u]⟩ := by
  unfold processMatch
  rw [hh, http_not_data u hh, hm, hf]
  dsimp only
  rw [if_neg hne]
  rfl

/-- The result of `InlineExternalImages`: the rewritten buffer, the final
cache (the function mutates the caller-owned map), and the ghost list of
URLs that were passed to `fetchImage`. -/
structure InlineResult where
  out : List Char
  cache : Cache
  fetched : List (List Char)

/-- `formats.InlineExternalImages`: rewrite every regex match left to
right, threading the cache through the closure (a `nil` cache in Go is
replaced by a fresh empty map, i.e. `[]`). -/
def InlineExternalImages (f : FetchFn) (html : List Char) (cache : Cache) : InlineResult :=
  match h : findImgMatch html with
  | none => ⟨html, cache, []⟩
  | some (p, g, u, r) =>
    let st := processMatch f cache g u
    let R := InlineExternalImages f r st.cache
    ⟨p ++ st.rep ++ R.out, R.cache, st.fetched ++ R.fetched⟩
termination_by html.length
decreasing_by exact findImgMatch_shrink html p g u r h

theorem InlineExternalImages_none (f : FetchFn) (html : List Char) (cache : Cache)
    (h : findImgMatch html = none) :
    InlineExternalImages f html cache = ⟨html, cache, []⟩ := by
  rw [InlineExternalImages, h]

theorem InlineExternalImages_some (f : FetchFn) (html : List Char) (cache : Cache)
    (p g u r : List Char) (h : findImgMatch html = some (p, g, u, r)) :
    InlineExternalImages f html cache =
      ⟨p ++ (processMatch f cache g u).rep ++
          (InlineExternalImages f r (processMatch f cache g u).cache).out,
        (InlineExternalImages f r (processMatch f cache g u).cache).cache,
        (processMatch f cache g u).fetched ++
          (InlineExternalImages f r (processMatch f cache g u).cache).fetched⟩ := by
  rw [InlineExternalImages, h]

/-! ## net.IP and its classification predicates

IPv4 addresses carry their four octets; IPv6 addresses their sixteen
bytes.  The predicates mirror the `net` package exactly (`IsLoopback`,
`IsPrivate`, `IsLinkLocalUnicast`, `IsLinkLocalMulticast`,
`IsUnspecified`, and `IsMulticast` for comparison with the spec). -/

inductive IP where
  | v4 (a b c d : Nat)
  | v6 (bytes : List Nat)
  deriving DecidableEq

def IP.byteAt (bs : List Nat) (i : Nat) : Nat := bs.getD i 0

/-- `net.IP.IsLoopback`: 127.0.0.0/8 or ::1. -/
def IP.isLoopback : IP → Bool
  | .v4 a _ _ _ => a == 127
  | .v6 bs => bs == [0, 0, 0, 0, 0, 0, 0, 0, 0, 0, 0, 0, 0, 0, 0, 1]

/-- `net.IP.IsPrivate`: RFC 1918 ranges or fc00::/7 (RFC 4193). -/
def IP.isPrivate : IP → Bool
  | .v4 a b _ _ => a == 10 || (a == 172 && (b &&& 240) == 16) || (a == 192 && b == 168)
  | .v6 bs => (IP.byteAt bs 0 &&& 254) == 252

/-- `net.IP.IsLinkLocalUnicast`: 169.254.0.0/16 or fe80::/10. -/
def IP.isLinkLocalUnicast : IP → Bool
  | .v4 a b _ _ => a == 169 && b == 254
  | .v6 bs => IP.byteAt bs 0 == 254 && (IP.byteAt bs 1 &&& 192) == 128

/-- `net.IP.IsLinkLocalMulticast`: 224.0.0.0/24 or ff02::/16. -/
def IP.isLinkLocalMulticast : IP → Bool
  | .v4 a b c _ => a == 224 && b == 0 && c == 0
  | .v6 bs => IP.byteAt bs 0 == 255 && (IP.byteAt bs 1 &&& 15) == 2

/-- `net.IP.IsUnspecified`: 0.0.0.0 or ::. -/
def IP.isUnspecified : IP → Bool
  | .v4 a b c d => a == 0 && b == 0 && c == 0 && d == 0
  | .v6 bs => bs == [0, 0, 0, 0, 0, 0, 0, 0, 0, 0, 0, 0, 0, 0, 0, 0]

/-- `net.IP.IsMulticast`: 224.0.0.0/4 or ff00::/8 (what the spec's
blanket word multicast denotes; the code does not consult it). -/
def IP.isMulticast : IP → Bool
  | .v4 a _ _ _ => (a &&& 240) == 224
  | .v6 bs => IP.byteAt bs 0 == 255

/-! ## formats.isPrivateHost -/

/-- Embedding of `strings.HasSuffix` on the underlying rune sequences. -/
def endsWithGo (s suf : String) : Bool :=
  startsWithL suf.data.reverse s.data.reverse

/-- `formats.isPrivateHost`: block well-known internal names outright,
then resolve via the supplied resolver (`net.LookupIP`); a resolver
failure blocks, and any returned address that is loopback, private,
link-local unicast, link-local multicast or unspecified blocks. -/
def isPrivateHost (lookup : String → Option (List IP)) (host : String) : Bool :=
  let lower := toLowerGo host
  if lower == "localhost" || endsWithGo lower ".local" ||
      lower == "metadata.google.internal" || endsWithGo lower ".internal" then
    true
  else
    match lookup host with
    | none => true
    | some ips =>
      ips.any fun ip =>
        ip.isLoopback || ip.isPrivate || ip.isLinkLocalUnicast ||
          ip.isLinkLocalMulticast || ip.isUnspecified

/-! ## The HTTP client and fetchImage

`inlineClient` is a plain `http.Client` with a 5-second timeout: it has no
custom `Transport` (so the dial re-resolves the hostname itself) and no
`CheckRedirect` (so it silently follows up to 10 redirects).  The network
is embedded as three oracles: `checkLookup` answers the `net.LookupIP`
call inside `isPrivateHost`; `dialLookup` answers the transparent
resolution performed inside the client when dialing (DNS rebinding is the
situation where the two differ); `serve` is the response of the machine
at a given address for a given URL.  Redirect responses are collapsed
into the `redirect` constructor (a 3xx status with a Location header,
taken as an absolute URL). -/

structure HttpResponse where
  status : Nat
  contentType : String
  body : List Nat
  deriving DecidableEq

inductive Reply where
  | response (resp : HttpResponse)
  | redirect (location : String)

structure Network where
  checkLookup : String → Option (List IP)
  dialLookup : String → Option IP
  serve : IP → String → Reply

/-- Hostname extraction of `url.Parse(raw).Hostname()` for http(s) URLs:
take the authority (up to `/`, `?` or `#`), keep what follows the last
`@`, strip brackets or a port.  A URL without an http(s) scheme has an
empty host component. -/
def hostOf (raw : String) : Option String :=
  let s := raw.data
  let afterScheme :=
    if startsWithL httpLit s then some (s.drop 7)
    else if startsWithL httpsLit s then some (s.drop 8)
    else none
  match afterScheme with
  | none => some ""
  | some t =>
    let auth := t.takeWhile fun c => !(c == '/' || c == '?' || c == '#')
    let hp := (auth.reverse.takeWhile fun c => !(c == '@')).reverse
    match hp with
    | '[' :: rest => some (String.mk (rest.takeWhile fun c => !(c == ']')))
    | _ => some (String.mk (hp.takeWhile fun c => !(c == ':')))

/-- One `inlineClient.Get`: dial the address the client itself resolves,
follow redirects with the default policy (an 11th request is never made;
the chain then fails with an error), collect the dialed addresses as a
ghost trace. -/
def clientGet (net : Network) : Nat → String → Option HttpResponse × List IP
  | 0, _ => (none, [])
  | fuel + 1, url =>
    match hostOf url with
    | none => (none, [])
    | some h =>
      match net.dialLookup h with
      | none => (none, [])
      | some ip =>
        match net.serve ip url with
        | .redirect loc =>
          let r := clientGet net fuel loc
          (r.1, ip :: r.2)
        | .response resp => (some resp, [ip])

/-- `formats.fetchImage`: parse the URL, refuse private hosts before any
connection, then issue the client request; non-200 or non-image responses
yield no data and nil error; the body is read through
`io.LimitReader(resp.Body, 5<<20)`, i.e. truncated to 5 MiB.  The second
component is the ghost trace of dialed addresses (TCP connections). -/
def fetchImage (net : Network) (rawURL : String) : Option (List Nat × String) × List IP :=
  match hostOf rawURL with
  | none => (none, [])
  | some host =>
    if isPrivateHost net.checkLookup host then (some ([], ""), [])
    else
      match clientGet net 10 rawURL with
      | (none, tr) => (none, tr)
      | (some resp, tr) =>
        if resp.status ≠ 200 then (some ([], ""), tr)
        else if !startsWithL "image/".data resp.contentType.data then (some ([], ""), tr)
        else (some (resp.body.take 5242880, resp.contentType), tr)

/-- The fetch function `InlineExternalImages` actually closes over. -/
def netFetch (net : Network) : FetchFn := fun u => (fetchImage net (String.mk u)).1

/-! ## cmd/converter/server.go: extracted files and helpers -/

/-- `extractedFile`: the JSON-tagged exported fields `Name`, `Size`,
`Type`, plus the unexported `data` field that `encoding/json` never
serializes. -/
structure ExtractedFile where
  name : String
  size : Nat
  type : String
  data : List Nat
  deriving DecidableEq

/-- `formats.ConvertedFile` as consumed by the server. -/
structure ConvertedFile where
  name : String
  data : List Nat
  category : String
  deriving DecidableEq

/-- `guessType`: UI kind tag from the lowercased file extension. -/
def guessType (n : String) : String :=
  let lower := toLowerGo n
  if endsWithGo lower ".html" || endsWithGo lower ".htm" then "html"
  else if endsWithGo lower ".txt" then "text"
  else if endsWithGo lower ".rtf" then "rtf"
  else if endsWithGo lower ".png" then "image"
  else if endsWithGo lower ".jpg" || endsWithGo lower ".jpeg" then "image"
  else if endsWithGo lower ".gif" then "image"
  else if endsWithGo lower ".pdf" then "pdf"
  else if endsWithGo lower ".doc" || endsWithGo lower ".docx" then "document"
  else if endsWithGo lower ".xls" || endsWithGo lower ".xlsx" then "spreadsheet"
  else "file"

/-- `imageMIME`: image MIME type from the lowercased extension. -/
def imageMIME (n : String) : String :=
  let lower := toLowerGo n
  if endsWithGo lower ".jpg" || endsWithGo lower ".jpeg" then "image/jpeg"
  else if endsWithGo lower ".gif" then "image/gif"
  else if endsWithGo lower ".bmp" then "image/bmp"
  else if endsWithGo lower ".webp" then "image/webp"
  else if endsWithGo lower ".svg" then "image/svg+xml"
  else "image/png"

/-- `contentType`: response Content-Type from the stored kind tag. -/
def contentType (n fileType : String) : String :=
  if fileType = "html" then "text/html; charset=utf-8"
  else if fileType = "text" then "text/plain; charset=utf-8"
  else if fileType = "rtf" then "application/rtf"
  else if fileType = "image" then imageMIME n
  else if fileType = "pdf" then "application/pdf"
  else "application/octet-stream"

/-- The rune replacement inside `safeDisposition`. -/
def sanitizeRune (r : Char) : Char :=
  if r.toNat < 32 ∨ r.toNat = 127 ∨ r = '"' ∨ r = '\\' then '_' else r

/-- `safeDisposition`: `strings.Map` the sanitizer over the name and wrap
it in the Content-Disposition template. -/
def safeDisposition (n : String) : String :=
  String.mk ("inline; filename=\"".data ++ n.data.map sanitizeRune ++ ['"'])

/-! ## encoding/json marshalling of the convert response

`encoding/json` serializes only the exported, tagged fields of
`extractedFile`; the unexported `data` never reaches the encoder. -/

def hexDigit (n : Nat) : Char := "0123456789abcdef".data.getD n '0'

/-- Per-character JSON string escaping as `encoding/json` performs it for
the characters that can occur here (quote, backslash, control characters
and the HTML-escaped `<`, `>`, `&`). -/
def jsonEscapeChar (c : Char) : List Char :=
  if c = '"' then ['\\', '"']
  else if c = '\\' then ['\\', '\\']
  else if c = '\n' then ['\\', 'n']
  else if c = '\r' then ['\\', 'r']
  else if c = '\t' then ['\\', 't']
  else if c.toNat < 32 ∨ c = '<' ∨ c = '>' ∨ c = '&' then
    '\\' :: 'u' :: '0' :: '0' :: [hexDigit (c.toNat / 16 % 16), hexDigit (c.toNat % 16)]
  else [c]

def jsonStr (s : String) : String :=
  String.mk ('"' :: s.data.flatMap jsonEscapeChar ++ ['"'])

/-- JSON object emitted for one `extractedFile` (fields in declaration
order: name, size, type; `data` is unexported and absent). -/
def extractedFileJSON (f : ExtractedFile) : String :=
  "\x7b\"name\":" ++ jsonStr f.name ++ ",\"size\":" ++ toString f.size ++
    ",\"type\":" ++ jsonStr f.type ++ "\x7d"

/-- JSON body of a successful `handleConvert` response
(`convertResponse`). -/
def convertResponseJSON (sid : String) (files : List ExtractedFile) : String :=
  "\x7b\"sessionId\":" ++ jsonStr sid ++ ",\"files\":[" ++
    String.intercalate "," (files.map extractedFileJSON) ++ "]\x7d"

/-! ## handleConvert and handleFile -/

/-- What a convert request looks like once the transport has delivered
it: the method, and the uploaded file if `r.FormFile` and `io.ReadAll`
succeeded. -/
structure ConvertRequest where
  method : String
  formFile : Option (String × List Nat)

/-- Observable outcome of `handleConvert`: HTTP status, the JSON error
message if any, and the files stored in the freshly created session
(`none` when no session is created). -/
structure ConvertOutcome where
  status : Nat
  errorMsg : Option String
  session : Option (List ExtractedFile)

/-- `handleConvert`, with the rate limiter and `formats.Detect` as
oracles: `detect` returns the converter (itself a function from the bytes
to `Except` of the converted items) or `none` when the format is
unsupported. -/
def handleConvert (allow : Bool)
    (detect : String → List Nat → Option (List Nat → Except String (List ConvertedFile)))
    (req : ConvertRequest) : ConvertOutcome :=
  if req.method ≠ "POST" then ⟨405, some "POST required", none⟩
  else if !allow then ⟨429, some "Too many requests -- try again shortly", none⟩
  else
    match req.formFile with
    | none => ⟨400, some "No file uploaded", none⟩
    | some (filename, data) =>
      match detect filename data with
      | none => ⟨400, some "Unsupported file format", none⟩
      | some convert =>
        match convert data with
        | .error e => ⟨400, some ("Conversion failed: " ++ e), none⟩
        | .ok items =>
          if items.length = 0 then ⟨422, some "No content found in file", none⟩
          else
            ⟨200, none,
              some (items.map fun it =>
                ⟨it.name, it.data.length, guessType it.name, it.data⟩)⟩

/-- `handleFile`'s lookup over a session's files: linear scan for the
first file with the requested name; on a hit, serve its bytes with the
derived Content-Type and sanitized Content-Disposition. -/
def handleFileResp (files : List ExtractedFile) (n : String) :
    Option (String × String × List Nat) :=
  (files.find? fun f => f.name == n).map fun f =>
    (contentType f.name f.type, safeDisposition f.name, f.data)

/-- The client-visible metadata of an extracted file. -/
def metaOf (f : ExtractedFile) : String × Nat × String := (f.name, f.size, f.type)

/-! ## Claims C7, C8, C9, C10 -/

theorem map_json_of_map_meta (fs₁ fs₂ : List ExtractedFile)
    (h : fs₁.map metaOf = fs₂.map metaOf) :
    fs₁.map extractedFileJSON = fs₂.map extractedFileJSON := by
  induction fs₁ generalizing fs₂ with
  | nil =>
    cases fs₂ with
    | nil => rfl
    | cons b bs => simp at h
  | cons a as ih =>
    cases fs₂ with
    | nil => simp at h
    | cons b bs =>
      simp only [List.map_cons, List.cons.injEq] at h ⊢
      obtain ⟨h1, h2⟩ := h
      refine ⟨?_, ih bs h2⟩
      have hn : a.name = b.name := congrArg Prod.fst h1
      have hs : a.size = b.size := congrArg (fun m => m.2.1) h1
      have ht : a.type = b.type := congrArg (fun m => m.2.2) h1
      unfold extractedFileJSON
      rw [hn, hs, ht]

/-- Claim C7: the convert-response JSON depends only on each file's
name, size and type — two result sets that differ only in their byte
contents serialize identically — while the per-session file handler is
what serves the stored bytes (with derived Content-Type and sanitized
Content-Disposition) for the first file matching the requested name. -/
theorem claim_C7 :
    (∀ (sid : String) (fs₁ fs₂ : List ExtractedFile), fs₁.map metaOf = fs₂.map metaOf →
        convertResponseJSON sid fs₁ = convertResponseJSON sid fs₂) ∧
    (∀ (fs : List ExtractedFile) (n : String) (f : ExtractedFile),
        fs.find? (fun g => g.name == n) = some f →
        handleFileResp fs n =
          some (contentType f.name f.type, safeDisposition f.name, f.data)) := by
  constructor
  · intro sid fs₁ fs₂ h
    unfold convertResponseJSON
    rw [map_json_of_map_meta fs₁ fs₂ h]
  · intro fs n f h
    unfold handleFileResp
    rw [h]
    rfl

/-- Witness for C7 at concrete inputs: same metadata, different bytes,
identical JSON; and the file handler returns the stored bytes. -/
theorem claim_C7_witness :
    convertResponseJSON "s0" [⟨"a.txt", 1, "text", [0]⟩] =
      convertResponseJSON "s0" [⟨"a.txt", 1, "text", [255]⟩] ∧
    handleFileResp [⟨"a.txt", 1, "text", [0]⟩] "a.txt" =
      some (contentType "a.txt" "text", safeDisposition "a.txt", [0]) :=
  ⟨claim_C7.1 "s0" [⟨"a.txt", 1, "text", [0]⟩] [⟨"a.txt", 1, "text", [255]⟩] (by decide),
    claim_C7.2 [⟨"a.txt", 1, "text", [0]⟩] "a.txt" ⟨"a.txt", 1, "text", [0]⟩ (by decide)⟩

/-- Claim C8: a successful detection and conversion that yields zero
artifacts is answered with HTTP 422 and an error message, and no session
is created. -/
theorem claim_C8 (allow : Bool)
    (detect : String → List Nat → Option (List Nat → Except String (List ConvertedFile)))
    (filename : String) (data : List Nat)
    (cv : List Nat → Except String (List ConvertedFile))
    (hallow : allow = true)
    (hdet : detect filename data = some cv)
    (hconv : cv data = .ok []) :
    handleConvert allow detect ⟨"POST", some (filename, data)⟩ =
      ⟨422, some "No content found in file", none⟩ := by
  subst hallow
  unfold handleConvert
  simp [hdet, hconv]

/-- Witness for C8: a concrete converter producing zero artifacts. -/
def detect422 : String → List Nat → Option (List Nat → Except String (List ConvertedFile)) :=
  fun _ _ => some fun _ => .ok []

/-- Witness for C8 at a concrete request. -/
theorem claim_C8_witness :
    handleConvert true detect422 ⟨"POST", some ("winmail.dat", [1, 2, 3])⟩ =
      ⟨422, some "No content found in file", none⟩ :=
  claim_C8 true detect422 "winmail.dat" [1, 2, 3] (fun _ => .ok []) rfl rfl rfl

/-- Claim C9: when the DNS lookup fails, `isPrivateHost` reports the host
as private, `fetchImage` returns without dialing any connection (empty
trace, empty data, nil error), and the rewrite step leaves the original
match — hence the src attribute — unchanged. -/
theorem claim_C9 (net : Network) (host : String) (cache : Cache) (g u : List Char)
    (hhost : hostOf (String.mk u) = some host)
    (hfail : net.checkLookup host = none)
    (hcache : lookupCache cache u = none ∨ lookupCache cache u = some []) :
    isPrivateHost net.checkLookup host = true ∧
    fetchImage net (String.mk u) = (some ([], ""), []) ∧
    (processMatch (netFetch net) cache g u).rep = g ++ u ++ ['"'] := by
  have hpriv : isPrivateHost net.checkLookup host = true := by
    unfold isPrivateHost
    dsimp only
    split
    · rfl
    · rw [hfail]
  refine ⟨hpriv, ?_, ?_⟩
  · unfold fetchImage
    rw [hhost]
    dsimp only
    rw [if_pos hpriv]
  · have hfetch : netFetch net u = some ([], "") := by
      unfold netFetch
      unfold fetchImage
      rw [hhost]
      dsimp only
      rw [if_pos hpriv]
    unfold processMatch
    by_cases h1 : (!(startsWithL httpLit u || startsWithL httpsLit u)) = true
    · rw [if_pos h1]
    · rw [if_neg h1]
      by_cases h2 : startsWithL dataLit u = true
      · rw [if_pos h2]
      · rw [if_neg h2]
        rcases hcache with hc | hc
        · rw [hc, hfetch]
          rfl
        · rw [hc]
          rfl

/-- Witness network for C9: every DNS lookup fails. -/
def nxNet : Network :=
  ⟨fun _ => none, fun _ => none, fun _ _ => Reply.response ⟨200, "", []⟩⟩

/-- Witness for C9 at a concrete host whose lookup fails. -/
theorem claim_C9_witness :
    isPrivateHost nxNet.checkLookup "nx.example.com" = true ∧
    fetchImage nxNet (String.mk "http://nx.example.com/a.png".data) = (some ([], ""), []) ∧
    (processMatch (netFetch nxNet) [] [] "http://nx.example.com/a.png".data).rep =
      [] ++ "http://nx.example.com/a.png".data ++ ['"'] :=
  claim_C9 nxNet "nx.example.com" [] [] "http://nx.example.com/a.png".data
    (by decide) rfl (Or.inl rfl)

/-- Counterexample to C10 as stated: the Content-Disposition value built
for the harmless name a.txt does contain a double-quote character (the
two quotes delimiting the filename parameter), so the header value is not
quote-free. -/
theorem claim_C10_counterexample :
    ('"' : Char) ∈ (safeDisposition "a.txt").data := by decide

/-- Claim C10 (amended): the header value contains no control characters
and no backslash, its only double quotes are the two that delimit the
filename parameter, and the sanitized filename inserted between them is
itself free of control characters, quotes and backslashes (each such rune
was replaced by an underscore). -/
theorem claim_C10 (n : String) :
    (∀ c ∈ (safeDisposition n).data, 32 ≤ c.toNat ∧ c.toNat ≠ 127) ∧
    ('\\' : Char) ∉ (safeDisposition n).data ∧
    (safeDisposition n).data.count '"' = 2 ∧
    ∃ s, (safeDisposition n).data = "inline; filename=\"".data ++ s ++ ['"'] ∧
      ('"' : Char) ∉ s ∧ ('\\' : Char) ∉ s := by
  have hdata : (safeDisposition n).data =
      "inline; filename=\"".data ++ n.data.map sanitizeRune ++ ['"'] := rfl
  have htpl : ∀ c ∈ "inline; filename=\"".data,
      (32 ≤ c.toNat ∧ c.toNat ≠ 127) ∧ c ≠ '\\' := by decide
  have hchar : ∀ c ∈ n.data.map sanitizeRune,
      (32 ≤ c.toNat ∧ c.toNat ≠ 127) ∧ c ≠ '"' ∧ c ≠ '\\' := by
    intro c hc
    rw [List.mem_map] at hc
    obtain ⟨r, _, hr⟩ := hc
    subst hr
    unfold sanitizeRune
    by_cases hb : r.toNat < 32 ∨ r.toNat = 127 ∨ r = '"' ∨ r = '\\'
    · rw [if_pos hb]
      refine ⟨⟨by decide, by decide⟩, by decide, by decide⟩
    · rw [if_neg hb]
      push_neg at hb
      exact ⟨⟨hb.1, hb.2.1⟩, hb.2.2.1, hb.2.2.2⟩
  refine ⟨?_, ?_, ?_, n.data.map sanitizeRune, hdata, ?_, ?_⟩
  · intro c hc
    rw [hdata] at hc
    rcases List.mem_append.mp hc with hc2 | hc2
    · rcases List.mem_append.mp hc2 with hc3 | hc3
      · exact (htpl c hc3).1
      · exact (hchar c hc3).1
    · have : c = '"' := by simpa using hc2
      subst this
      exact ⟨by decide, by decide⟩
  · intro hmem
    rw [hdata] at hmem
    rcases List.mem_append.mp hmem with hc2 | hc2
    · rcases List.mem_append.mp hc2 with hc3 | hc3
      · exact (htpl _ hc3).2 rfl
      · exact (hchar _ hc3).2.2 rfl
    · simp at hc2
  · rw [hdata, List.count_append, List.count_append]
    have h1 : "inline; filename=\"".data.count '"' = 1 := by decide
    have h2 : (n.data.map sanitizeRune).count '"' = 0 :=
      List.count_eq_zero.mpr fun hm => (hchar _ hm).2.1 rfl
    have h3 : ['"'].count '"' = 1 := by decide
    rw [h1, h2, h3]
  · exact fun hm => (hchar _ hm).2.1 rfl
  · exact fun hm => (hchar _ hm).2.2 rfl

/-! ## Claims C1, C2, C3 -/

theorem isPrivateHost_true_of (lookup : String → Option (List IP)) (host : String)
    (h : toLowerGo host = "localhost" ∨ endsWithGo (toLowerGo host) ".local" = true ∨
         toLowerGo host = "metadata.google.internal" ∨
         endsWithGo (toLowerGo host) ".internal" = true ∨
         lookup host = none ∨
         (∃ ips ip, lookup host = some ips ∧ ip ∈ ips ∧
            (ip.isLoopback || ip.isPrivate || ip.isLinkLocalUnicast ||
             ip.isLinkLocalMulticast || ip.isUnspecified) = true)) :
    isPrivateHost lookup host = true := by
  unfold isPrivateHost
  dsimp only
  split
  · rfl
  next hname =>
    rcases h with h | h | h | h | h | h
    · simp [h] at hname
    · simp [h] at hname
    · simp [h] at hname
    · simp [h] at hname
    · rw [h]
    · obtain ⟨ips, ip, hips, hmem, hbad⟩ := h
      rw [hips]
      dsimp only
      rw [List.any_eq_true]
      exact ⟨ip, hmem, hbad⟩

/-- Claim C3 (amended): the fetch is refused — empty result, nil error
and no connection dialed — whenever the host name is blocked outright
(localhost, a .local or .internal suffix, metadata.google.internal),
the lookup fails, or any resolved address is loopback, private,
link-local unicast, link-local multicast, or unspecified.  (The claim's
blanket multicast is amended to link-local multicast: that is the only
multicast class the code tests.) -/
theorem claim_C3 (net : Network) (raw host : String)
    (hhost : hostOf raw = some host)
    (hblock : toLowerGo host = "localhost" ∨
        endsWithGo (toLowerGo host) ".local" = true ∨
        toLowerGo host = "metadata.google.internal" ∨
        endsWithGo (toLowerGo host) ".internal" = true ∨
        net.checkLookup host = none ∨
        (∃ ips ip, net.checkLookup host = some ips ∧ ip ∈ ips ∧
          (ip.isLoopback || ip.isPrivate || ip.isLinkLocalUnicast ||
           ip.isLinkLocalMulticast || ip.isUnspecified) = true)) :
    fetchImage net raw = (some ([], ""), []) := by
  have hpriv := isPrivateHost_true_of net.checkLookup host hblock
  unfold fetchImage
  rw [hhost]
  dsimp only
  rw [if_pos hpriv]

/-- Counterexample network for C3: a host resolving to the multicast
address 239.1.1.1 (multicast, but not link-local multicast). -/
def mcNet : Network :=
  ⟨fun _ => some [IP.v4 239 1 1 1], fun _ => some (IP.v4 239 1 1 1),
   fun _ _ => Reply.response ⟨200, "image/png", [7]⟩⟩

/-- Counterexample to C3 as stated: a host resolving only to the
multicast address 239.1.1.1 is not refused — `isPrivateHost` returns
false and the fetch dials the connection and returns the payload. -/
theorem claim_C3_counterexample :
    (IP.v4 239 1 1 1).isMulticast = true ∧
    isPrivateHost mcNet.checkLookup "mc.example.com" = false ∧
    fetchImage mcNet "http://mc.example.com/i.png" =
      (some ([7], "image/png"), [IP.v4 239 1 1 1]) := by decide

/-- Witness for C3 at the five resolutions named by the claim, plus the
blocked metadata hostname: each fetch returns empty-handed with no
connection dialed. -/
theorem claim_C3_witness :
    fetchImage ⟨fun _ => some [IP.v4 127 0 0 1], fun _ => some (IP.v4 127 0 0 1),
        fun _ _ => Reply.response ⟨200, "image/png", [7]⟩⟩
      "http://h.example.com/i.png" = (some ([], ""), []) ∧
    fetchImage ⟨fun _ => some [IP.v4 10 0 0 1], fun _ => some (IP.v4 10 0 0 1),
        fun _ _ => Reply.response ⟨200, "image/png", [7]⟩⟩
      "http://h.example.com/i.png" = (some ([], ""), []) ∧
    fetchImage ⟨fun _ => some [IP.v4 169 254 169 254], fun _ => some (IP.v4 169 254 169 254),
        fun _ _ => Reply.response ⟨200, "image/png", [7]⟩⟩
      "http://h.example.com/i.png" = (some ([], ""), []) ∧
    fetchImage ⟨fun _ => some [IP.v6 [0, 0, 0, 0, 0, 0, 0, 0, 0, 0, 0, 0, 0, 0, 0, 1]],
        fun _ => none, fun _ _ => Reply.response ⟨200, "image/png", [7]⟩⟩
      "http://h.example.com/i.png" = (some ([], ""), []) ∧
    fetchImage ⟨fun _ => some [IP.v6 [252, 0, 0, 0, 0, 0, 0, 0, 0, 0, 0, 0, 0, 0, 0, 1]],
        fun _ => none, fun _ _ => Reply.response ⟨200, "image/png", [7]⟩⟩
      "http://h.example.com/i.png" = (some ([], ""), []) ∧
    fetchImage ⟨fun _ => some [IP.v4 169 254 169 254], fun _ => some (IP.v4 169 254 169 254),
        fun _ _ => Reply.response ⟨200, "image/png", [7]⟩⟩
      "http://metadata.google.internal/x" = (some ([], ""), []) := by
  refine ⟨?_, ?_, ?_, ?_, ?_, ?_⟩
  · exact claim_C3 _ _ "h.example.com" (by decide)
      (Or.inr (Or.inr (Or.inr (Or.inr (Or.inr
        ⟨[IP.v4 127 0 0 1], IP.v4 127 0 0 1, rfl, by decide, by decide⟩)))))
  · exact claim_C3 _ _ "h.example.com" (by decide)
      (Or.inr (Or.inr (Or.inr (Or.inr (Or.inr
        ⟨[IP.v4 10 0 0 1], IP.v4 10 0 0 1, rfl, by decide, by decide⟩)))))
  · exact claim_C3 _ _ "h.example.com" (by decide)
      (Or.inr (Or.inr (Or.inr (Or.inr (Or.inr
        ⟨[IP.v4 169 254 169 254], IP.v4 169 254 169 254, rfl, by decide, by decide⟩)))))
  · exact claim_C3 _ _ "h.example.com" (by decide)
      (Or.inr (Or.inr (Or.inr (Or.inr (Or.inr
        ⟨[IP.v6 [0, 0, 0, 0, 0, 0, 0, 0, 0, 0, 0, 0, 0, 0, 0, 1]],
          IP.v6 [0, 0, 0, 0, 0, 0, 0, 0, 0, 0, 0, 0, 0, 0, 0, 1], rfl, by decide, by decide⟩)))))
  · exact claim_C3 _ _ "h.example.com" (by decide)
      (Or.inr (Or.inr (Or.inr (Or.inr (Or.inr
        ⟨[IP.v6 [252, 0, 0, 0, 0, 0, 0, 0, 0, 0, 0, 0, 0, 0, 0, 1]],
          IP.v6 [252, 0, 0, 0, 0, 0, 0, 0, 0, 0, 0, 0, 0, 0, 0, 1], rfl, by decide, by decide⟩)))))
  · exact claim_C3 _ _ "metadata.google.internal" (by decide)
      (Or.inr (Or.inr (Or.inl (by decide))))

theorem clientGet_check_irrel (L₁ L₂ : String → Option (List IP))
    (dial : String → Option IP) (serve : IP → String → Reply) :
    ∀ fuel url, clientGet ⟨L₁, dial, serve⟩ fuel url = clientGet ⟨L₂, dial, serve⟩ fuel url := by
  intro fuel
  induction fuel with
  | zero => intro url; rfl
  | succ n ih =>
    intro url
    unfold clientGet
    cases hostOf url with
    | none => rfl
    | some h =>
      dsimp only
      cases dial h with
      | none => rfl
      | some ip =>
        dsimp only
        cases serve ip url with
        | redirect loc =>
          dsimp only
          rw [ih loc]
        | response resp => rfl

/-- Claim C2 (amended): the address resolved during validation is not the
one used to dial — `isPrivateHost` performs its own lookup, and the HTTP
client re-resolves the hostname when connecting, with no further
validation of the initial target or of any redirect target.  Formally,
once validation passes, the entire fetch (result and every dialed
address, across all redirect hops) is independent of the validation-time
resolver. -/
theorem claim_C2 (L₁ L₂ : String → Option (List IP)) (dial : String → Option IP)
    (serve : IP → String → Reply) (raw host : String)
    (hhost : hostOf raw = some host)
    (h₁ : isPrivateHost L₁ host = false)
    (h₂ : isPrivateHost L₂ host = false) :
    fetchImage ⟨L₁, dial, serve⟩ raw = fetchImage ⟨L₂, dial, serve⟩ raw := by
  unfold fetchImage
  rw [hhost]
  dsimp only
  rw [h₁, h₂]
  simp only [Bool.false_eq_true, if_false]
  rw [clientGet_check_irrel L₁ L₂ dial serve 10 raw]

/-- Rebinding network for C2: validation sees a public address, the dial
resolves the same name to loopback. -/
def rebindNet : Network :=
  ⟨fun _ => some [IP.v4 93 184 216 34], fun _ => some (IP.v4 127 0 0 1),
   fun _ _ => Reply.response ⟨200, "image/png", [7]⟩⟩

/-- Redirect network for C2: the first hop redirects to a host under
.internal which validation would reject, yet the client follows. -/
def redirNet : Network :=
  ⟨fun _ => some [IP.v4 93 184 216 34],
   fun h => if h == "evil.internal" then some (IP.v4 10 0 0 1)
            else some (IP.v4 93 184 216 34),
   fun _ url => if url == "http://start.example.com/a"
                then Reply.redirect "http://evil.internal/x"
                else Reply.response ⟨200, "image/png", [7]⟩⟩

/-- Counterexample to C2 as stated: under DNS rebinding the dialed
address (127.0.0.1, loopback) is not among the validated addresses; and a
redirect to a host that the SSRF rules reject (evil.internal, resolving
to private 10.0.0.1) is followed and dialed without re-validation. -/
theorem claim_C2_counterexample :
    ((fetchImage rebindNet "http://re.example.com/i.png").2 = [IP.v4 127 0 0 1] ∧
     rebindNet.checkLookup "re.example.com" = some [IP.v4 93 184 216 34] ∧
     (IP.v4 127 0 0 1) ∉ [IP.v4 93 184 216 34] ∧
     (IP.v4 127 0 0 1).isLoopback = true) ∧
    ((fetchImage redirNet "http://start.example.com/a").2 =
        [IP.v4 93 184 216 34, IP.v4 10 0 0 1] ∧
     isPrivateHost redirNet.checkLookup "evil.internal" = true ∧
     (IP.v4 10 0 0 1).isPrivate = true) := by decide

/-- Witness resolvers for C2. -/
def cwLookup1 : String → Option (List IP) := fun _ => some [IP.v4 93 184 216 34]

/-- Second witness resolver for C2. -/
def cwLookup2 : String → Option (List IP) := fun _ => some [IP.v4 8 8 8 8]

/-- Witness for C2 at concrete networks differing only in the
validation-time resolver. -/
theorem claim_C2_witness :
    fetchImage ⟨cwLookup1, fun _ => some (IP.v4 1 1 1 1),
        fun _ _ => Reply.response ⟨200, "image/png", [1]⟩⟩ "http://w.example.com/i.png" =
    fetchImage ⟨cwLookup2, fun _ => some (IP.v4 1 1 1 1),
        fun _ _ => Reply.response ⟨200, "image/png", [1]⟩⟩ "http://w.example.com/i.png" :=
  claim_C2 cwLookup1 cwLookup2 (fun _ => some (IP.v4 1 1 1 1))
    (fun _ _ => Reply.response ⟨200, "image/png", [1]⟩)
    "http://w.example.com/i.png" "w.example.com" (by decide) (by decide) (by decide)

/-- Claim C1 (amended): a response that passes the status and
Content-Type checks is returned with its body truncated to the first
5 MiB (5242880 bytes) by the LimitReader — an over-5-MiB payload is not
abandoned; its first 5 MiB is returned and subsequently inlined. -/
theorem claim_C1 (net : Network) (raw host : String) (resp : HttpResponse) (tr : List IP)
    (hhost : hostOf raw = some host)
    (hpriv : isPrivateHost net.checkLookup host = false)
    (hget : clientGet net 10 raw = (some resp, tr))
    (hst : resp.status = 200)
    (hct : startsWithL "image/".data resp.contentType.data = true) :
    fetchImage net raw = (some (resp.body.take 5242880, resp.contentType), tr) ∧
    (resp.body.take 5242880).length = min 5242880 resp.body.length := by
  constructor
  · unfold fetchImage
    rw [hhost]
    dsimp only
    rw [hpriv]
    simp only [Bool.false_eq_true, if_false]
    rw [hget]
    dsimp only
    rw [hst, hct]
    simp
  · exact List.length_take _ _

/-- Witness network for C1: a small in-range response. -/
def smallNet : Network :=
  ⟨fun _ => some [IP.v4 93 184 216 34], fun _ => some (IP.v4 93 184 216 34),
   fun _ _ => Reply.response ⟨200, "image/png", [1, 2, 3]⟩⟩

/-- Witness for C1 at a concrete network. -/
theorem claim_C1_witness :
    fetchImage smallNet "http://img.example.com/i.png" =
      (some (([1, 2, 3] : List Nat).take 5242880, "image/png"), [IP.v4 93 184 216 34]) ∧
    (([1, 2, 3] : List Nat).take 5242880).length = min 5242880 ([1, 2, 3] : List Nat).length :=
  claim_C1 smallNet "http://img.example.com/i.png" "img.example.com"
    ⟨200, "image/png", [1, 2, 3]⟩ [IP.v4 93 184 216 34]
    (by decide) (by decide) (by decide) rfl (by decide)

/-- The network serving a payload one byte over the 5 MiB cap. -/
def bigNet : Network :=
  ⟨fun _ => some [IP.v4 93 184 216 34], fun _ => some (IP.v4 93 184 216 34),
   fun _ _ => Reply.response ⟨200, "image/png", List.replicate 5242881 7⟩⟩

/-- The HTML input for the C1 counterexample. -/
def bigHtml : List Char := "<img src=\"http://img.example.com/big.png\">".data

/-- The URL inside bigHtml. -/
def bigUrl : List Char := "http://img.example.com/big.png".data

theorem bigNet_fetch :
    (fetchImage bigNet "http://img.example.com/big.png").1 =
      some (List.replicate 5242880 7, "image/png") := by
  have hcg : clientGet bigNet 10 "http://img.example.com/big.png" =
      (some ⟨200, "image/png", List.replicate 5242881 7⟩, [IP.v4 93 184 216 34]) := rfl
  have hhost : hostOf "http://img.example.com/big.png" = some "img.example.com" := by decide
  have hpriv : isPrivateHost bigNet.checkLookup "img.example.com" = false := by decide
  unfold fetchImage
  rw [hhost]
  dsimp only
  rw [hpriv]
  simp only [Bool.false_eq_true, if_false]
  rw [hcg]
  dsimp only
  norm_num [show startsWithL "image/".data "image/png".data = true from by decide,
    List.take_replicate]

/-- Counterexample to C1 as stated: for a 5 MiB + 1 byte payload the
response is not abandoned — `fetchImage` returns the truncated first
5 MiB — and the `<img>` src is not left untouched: the rewritten HTML
differs from the input. -/
theorem claim_C1_counterexample :
    (fetchImage bigNet "http://img.example.com/big.png").1 =
      some (List.replicate 5242880 7, "image/png") ∧
    (InlineExternalImages (netFetch bigNet) bigHtml []).out ≠ bigHtml := by
  refine ⟨bigNet_fetch, ?_⟩
  intro hEq
  have hfind : findImgMatch bigHtml = some ([], "<img src=\"".data, bigUrl, ['>']) := by
    decide
  rw [InlineExternalImages_some _ _ _ _ _ _ _ hfind] at hEq
  rw [InlineExternalImages_none _ _ _ (by decide : findImgMatch ['>'] = none)] at hEq
  have hfetch : netFetch bigNet bigUrl = some (List.replicate 5242880 7, "image/png") :=
    bigNet_fetch
  have hrep : (processMatch (netFetch bigNet) [] "<img src=\"".data bigUrl).rep =
      "<img src=\"".data ++ (dataLit ++ "image/png".data ++ b64SepLit ++
        base64Encode (List.replicate 5242880 7)) ++ ['"'] := by
    rw [processMatch_fetch_ok (netFetch bigNet) [] "<img src=\"".data bigUrl
      (List.replicate 5242880 7) "image/png" (by decide) rfl hfetch
      (fun hnil => (by omega : (5242880 : Nat) ≠ 0)
        ((List.replicate_eq_nil_iff 7).mp hnil))]
    rw [show imageContentType "image/png" = "image/png" by decide]
  rw [hrep] at hEq
  have h10 := congrArg (fun l => l[10]?) hEq
  simp only [List.nil_append, List.append_assoc] at h10
  rw [List.getElem?_append_right
    (by decide : ("<img src=\"".data).length ≤ 10)] at h10
  rw [show (10 - ("<img src=\"".data).length) = 0 by decide] at h10
  rw [show (∀ Y : List Char, (dataLit ++ Y)[0]? = some 'd') from fun _ => rfl] at h10
  rw [show bigHtml[10]? = some 'h' by decide] at h10
  exact absurd h10 (by decide)


/-! ## Claims C5 and C6 -/

theorem bool_eq_false {b : Bool} (h : ¬ b = true) : b = false := by
  cases b
  · rfl
  · exact absurd rfl h

theorem lookupCache_cons (k0 v0 : List Char) (t : Cache) (u : List Char) :
    lookupCache ((k0, v0) :: t) u = if k0 = u then some v0 else lookupCache t u := rfl

theorem lookupCache_mem (cache : Cache) (u v : List Char)
    (h : lookupCache cache u = some v) : ∃ k, (k, v) ∈ cache := by
  induction cache with
  | nil => simp [lookupCache] at h
  | cons kv t ih =>
    obtain ⟨k0, v0⟩ := kv
    rw [lookupCache_cons] at h
    by_cases hk : k0 = u
    · rw [if_pos hk] at h
      injection h with hv
      exact ⟨k0, by rw [← hv]; exact List.mem_cons_self _ _⟩
    · rw [if_neg hk] at h
      obtain ⟨k, hk⟩ := ih h
      exact ⟨k, List.mem_cons_of_mem _ hk⟩

/-- Everything `processMatch` does to the cache and the fetch trace:
existing entries persist, and the step either fetches nothing and leaves
the cache alone, or fetches exactly the missing URL and caches it. -/
theorem processMatch_step_facts (f : FetchFn) (cache : Cache) (g u : List Char) :
    (∀ k v, lookupCache cache k = some v →
      lookupCache (processMatch f cache g u).cache k = some v) ∧
    ((processMatch f cache g u).fetched = [] ∧ (processMatch f cache g u).cache = cache ∨
     ((processMatch f cache g u).fetched = [u] ∧ lookupCache cache u = none ∧
      (lookupCache (processMatch f cache g u).cache u).isSome = true)) := by
  by_cases hh : (startsWithL httpLit u || startsWithL httpsLit u) = true
  · cases hm : lookupCache cache u with
    | some d =>
      rw [processMatch_cached f cache g u d hh hm]
      by_cases hd : d = []
      · rw [if_pos hd]
        exact ⟨fun k v h => h, Or.inl ⟨rfl, rfl⟩⟩
      · rw [if_neg hd]
        exact ⟨fun k v h => h, Or.inl ⟨rfl, rfl⟩⟩
    | none =>
      have hpres : ∀ (w : List Char) (k v : List Char), lookupCache cache k = some v →
          lookupCache (insertCache cache u w) k = some v := by
        intro w k v h
        have hku : u ≠ k := by
          intro he
          rw [he] at hm
          rw [hm] at h
          exact Option.noConfusion h
        rw [insertCache, lookupCache_cons, if_neg hku]
        exact h
      have hself : ∀ w : List Char,
          (lookupCache (insertCache cache u w) u).isSome = true := by
        intro w
        rw [insertCache, lookupCache_cons, if_pos rfl]
        rfl
      cases hf : f u with
      | none =>
        rw [processMatch_fetch_err f cache g u hh hm hf]
        exact ⟨hpres [], Or.inr ⟨rfl, rfl, hself []⟩⟩
      | some p =>
        obtain ⟨data, ct⟩ := p
        by_cases hd : data = []
        · subst hd
          rw [processMatch_fetch_empty f cache g u ct hh hm hf]
          exact ⟨hpres [], Or.inr ⟨rfl, rfl, hself []⟩⟩
        · rw [processMatch_fetch_ok f cache g u data ct hh hm hf hd]
          exact ⟨hpres _, Or.inr ⟨rfl, rfl, hself _⟩⟩
  · rw [processMatch_not_http f cache g u (bool_eq_false hh)]
    exact ⟨fun k v h => h, Or.inl ⟨rfl, rfl⟩⟩

theorem inline_inv_aux (f : FetchFn) :
    ∀ n (html : List Char), html.length ≤ n → ∀ cache : Cache,
      (∀ k v, lookupCache cache k = some v →
        lookupCache (InlineExternalImages f html cache).cache k = some v) ∧
      (∀ u ∈ (InlineExternalImages f html cache).fetched, lookupCache cache u = none) ∧
      (∀ u ∈ (InlineExternalImages f html cache).fetched,
        (lookupCache (InlineExternalImages f html cache).cache u).isSome = true) ∧
      (InlineExternalImages f html cache).fetched.Nodup := by
  intro n
  induction n with
  | zero =>
    intro html hlen cache
    have hnil : html = [] := List.length_eq_zero.mp (Nat.le_zero.mp hlen)
    subst hnil
    rw [InlineExternalImages_none f [] cache rfl]
    exact ⟨fun k v h => h, by simp, by simp, List.nodup_nil⟩
  | succ n ih =>
    intro html hlen cache
    cases hfind : findImgMatch html with
    | none =>
      rw [InlineExternalImages_none f html cache hfind]
      exact ⟨fun k v h => h, by simp, by simp, List.nodup_nil⟩
    | some q =>
      obtain ⟨p, g, u, r⟩ := q
      have hrlen : r.length ≤ n :=
        Nat.lt_succ_iff.mp (Nat.lt_of_lt_of_le (findImgMatch_shrink html p g u r hfind) hlen)
      obtain ⟨st1, st2⟩ := processMatch_step_facts f cache g u
      obtain ⟨ih1, ih2, ih3, ih4⟩ := ih r hrlen (processMatch f cache g u).cache
      rw [InlineExternalImages_some f html cache p g u r hfind]
      dsimp only
      refine ⟨fun k v h => ih1 k v (st1 k v h), ?_, ?_, ?_⟩
      · intro w hw
        rcases List.mem_append.mp hw with hw1 | hw1
        · rcases st2 with ⟨he, _⟩ | ⟨he, hnone, _⟩
          · rw [he] at hw1; simp at hw1
          · rw [he] at hw1
            have : w = u := by simpa using hw1
            rw [this]
            exact hnone
        · have hnone := ih2 w hw1
          cases hc : lookupCache cache w with
          | none => rfl
          | some v =>
            rw [st1 w v hc] at hnone
            exact Option.noConfusion hnone
      · intro w hw
        rcases List.mem_append.mp hw with hw1 | hw1
        · rcases st2 with ⟨he, _⟩ | ⟨he, _, hsome⟩
          · rw [he] at hw1; simp at hw1
          · rw [he] at hw1
            have hwu : w = u := by simpa using hw1
            rw [hwu]
            obtain ⟨x, hx⟩ := Option.isSome_iff_exists.mp hsome
            rw [ih1 u x hx]
            rfl
        · exact ih3 w hw1
      · rcases st2 with ⟨he, _⟩ | ⟨he, _, hsome⟩
        · rw [he]
          simpa using ih4
        · rw [he]
          rw [List.singleton_append, List.nodup_cons]
          refine ⟨?_, ih4⟩
          intro hmem
          have hnone := ih2 u hmem
          rw [hnone] at hsome
          exact Bool.noConfusion hsome

/-- Claim C5: within one call (and across calls sharing the caller-owned
cache) each unique URL is fetched at most once: the ghost fetch trace has
no duplicates, every fetched URL was absent from the incoming cache, and
every fetched URL is present in the final cache (so later calls sharing
the cache never fetch it again). -/
theorem claim_C5 (f : FetchFn) (html : List Char) (cache : Cache) :
    (InlineExternalImages f html cache).fetched.Nodup ∧
    (∀ u ∈ (InlineExternalImages f html cache).fetched, lookupCache cache u = none) ∧
    (∀ u ∈ (InlineExternalImages f html cache).fetched,
      (lookupCache (InlineExternalImages f html cache).cache u).isSome = true) := by
  obtain ⟨h1, h2, h3, h4⟩ := inline_inv_aux f html.length html (Nat.le_refl _) cache
  exact ⟨h4, h2, h3⟩

theorem inline_allfail_aux (f : FetchFn) (hf : ∀ u, f u = none) :
    ∀ n (html : List Char), html.length ≤ n → ∀ cache : Cache,
      (∀ kv ∈ cache, kv.2 = ([] : List Char)) →
      (InlineExternalImages f html cache).out = html := by
  intro n
  induction n with
  | zero =>
    intro html hlen cache hinv
    have hnil : html = [] := List.length_eq_zero.mp (Nat.le_zero.mp hlen)
    subst hnil
    rw [InlineExternalImages_none f [] cache rfl]
  | succ n ih =>
    intro html hlen cache hinv
    cases hfind : findImgMatch html with
    | none => rw [InlineExternalImages_none f html cache hfind]
    | some q =>
      obtain ⟨p, g, u, r⟩ := q
      have hrlen : r.length ≤ n :=
        Nat.lt_succ_iff.mp (Nat.lt_of_lt_of_le (findImgMatch_shrink html p g u r hfind) hlen)
      rw [InlineExternalImages_some f html cache p g u r hfind]
      dsimp only
      have hhtml : html = p ++ g ++ u ++ '"' :: r :=
        (findImgMatch_eq html p g u r hfind).1
      by_cases hh : (startsWithL httpLit u || startsWithL httpsLit u) = true
      · cases hm : lookupCache cache u with
        | some d =>
          have hd : d = [] := by
            obtain ⟨k, hk⟩ := lookupCache_mem cache u d hm
            exact hinv (k, d) hk
          subst hd
          rw [processMatch_cached f cache g u [] hh hm]
          rw [if_pos rfl]
          dsimp only
          rw [ih r hrlen cache hinv]
          rw [hhtml]
          simp
        | none =>
          rw [processMatch_fetch_err f cache g u hh hm (hf u)]
          dsimp only
          have hinv2 : ∀ kv ∈ insertCache cache u [], kv.2 = ([] : List Char) := by
            intro kv hkv
            rcases List.mem_cons.mp hkv with h1 | h1
            · rw [h1]
            · exact hinv kv h1
          rw [ih r hrlen _ hinv2]
          rw [hhtml]
          simp
      · rw [processMatch_not_http f cache g u (bool_eq_false hh)]
        dsimp only
        rw [ih r hrlen cache hinv]
        rw [hhtml]
        simp

/-- Claim C6: failures are swallowed.  A match whose URL fetch fails (an
error, or no data: blocked host, non-200 status, non-image Content-Type)
is emitted with its original src — and an entire rewrite in which every
fetch fails returns the input unchanged; the rewrite itself never
produces an error. -/
theorem claim_C6 :
    (∀ (f : FetchFn) (cache : Cache) (g u : List Char),
       (f u = none ∨ ∃ ct, f u = some ([], ct)) →
       (lookupCache cache u = none ∨ lookupCache cache u = some []) →
       (processMatch f cache g u).rep = g ++ u ++ ['"']) ∧
    (∀ (f : FetchFn) (html : List Char), (∀ u, f u = none) →
       (InlineExternalImages f html []).out = html) := by
  constructor
  · intro f cache g u hfail hcache
    by_cases hh : (startsWithL httpLit u || startsWithL httpsLit u) = true
    · rcases hcache with hm | hm
      · rcases hfail with hfe | ⟨ct, hfe⟩
        · rw [processMatch_fetch_err f cache g u hh hm hfe]
        · rw [processMatch_fetch_empty f cache g u ct hh hm hfe]
      · rw [processMatch_cached f cache g u [] hh hm]
        rw [if_pos rfl]
    · rw [processMatch_not_http f cache g u (bool_eq_false hh)]
  · intro f html hf
    exact inline_allfail_aux f hf html.length html (Nat.le_refl _) [] (by simp)

/-- The always-failing fetch used by the C6 witness. -/
def failFetch : FetchFn := fun _ => none

/-- Witness for C6 at a concrete match and a concrete buffer. -/
theorem claim_C6_witness :
    (processMatch failFetch [] "<img src=\"".data "http://w.example.com/i.png".data).rep =
      "<img src=\"".data ++ "http://w.example.com/i.png".data ++ ['"'] ∧
    (InlineExternalImages failFetch "<p><img src=\"http://w.example.com/i.png\"></p>".data
        []).out = "<p><img src=\"http://w.example.com/i.png\"></p>".data :=
  ⟨claim_C6.1 failFetch [] "<img src=\"".data "http://w.example.com/i.png".data
      (Or.inl rfl) (Or.inl rfl),
    claim_C6.2 failFetch "<p><img src=\"http://w.example.com/i.png\"></p>".data
      fun _ => rfl⟩


/-! ## Claim C4: idempotence of the rewrite

The stack of lemmas below shows that re-running the scanner over rewritten
output finds exactly the same matches: replacing the url group of a match
by any other non-empty quote-free string neither creates a match at an
earlier position nor destroys the match itself. -/

theorem startsWithL_self_append (p z : List Char) : startsWithL p (p ++ z) = true :=
  (startsWithL_iff p (p ++ z)).mpr ⟨z, rfl⟩

theorem getLastD_append (xs ys : List Char) (d : Char) :
    (xs ++ ys).getLastD d = ys.getLastD (xs.getLastD d) := by
  induction xs generalizing d with
  | nil => rfl
  | cons x xs ih =>
    rw [List.cons_append, List.getLastD_cons, List.getLastD_cons, ih]

theorem scanMid_cons (m : List Char) (prev c : Char) (t : List Char) :
    scanMid m prev (c :: t) =
      if !wordChar prev && startsWithL srcQuote (c :: t) then
        match takeUrl ((c :: t).drop 5) with
        | some (url, rest) => some (m, url, rest)
        | none => if c = '>' then none else scanMid (m ++ [c]) c t
      else if c = '>' then none else scanMid (m ++ [c]) c t := by
  rw [scanMid]

theorem scanMid_length (m : List Char) (p : Char) (t M u r : List Char)
    (h : scanMid m p t = some (M, u, r)) : u.length + r.length + 6 ≤ t.length := by
  obtain ⟨e, _, he, _, _, _⟩ := scanMid_eq t m p M u r h
  rw [he]
  simp [srcQuote]
  omega

theorem quote_mem_drop5 (c : Char) (e₂ : List Char) :
    '"' ∈ ((c :: e₂) ++ srcQuote).drop 5 := by
  have h : (c :: e₂) ++ srcQuote = ((c :: e₂) ++ ['s', 'r', 'c', '=']) ++ ['"'] := by
    simp [srcQuote]
  rw [h, List.drop_append_of_le_length (by simp)]
  simp


/-- Replacing the url group (and everything after it) of a successful
`scanMid` run by any non-empty quote-free url leaves the consumed middle
unchanged and succeeds with the new url. -/
theorem scanMid_swap (e : List Char) :
    ∀ (m : List Char) (prev : Char) (u r M u' r' : List Char),
    u ≠ [] → '"' ∉ u → u' ≠ [] → '"' ∉ u' →
    scanMid m prev (e ++ (srcQuote ++ (u ++ '"' :: r))) = some (M, u, r) →
    scanMid m prev (e ++ (srcQuote ++ (u' ++ '"' :: r'))) = some (M, u', r') := by
  induction e with
  | nil =>
    intro m prev u r M u' r' hun huq hun' huq' h
    rw [List.nil_append] at h ⊢
    rw [show srcQuote ++ (u ++ '"' :: r) =
      's' :: ('r' :: 'c' :: '=' :: '"' :: (u ++ '"' :: r)) from rfl] at h
    rw [show srcQuote ++ (u' ++ '"' :: r') =
      's' :: ('r' :: 'c' :: '=' :: '"' :: (u' ++ '"' :: r')) from rfl]
    rw [scanMid_cons] at h
    rw [scanMid_cons]
    by_cases hw : wordChar prev = true
    · simp only [hw, Bool.not_true, Bool.false_and, Bool.false_eq_true, if_false] at h
      rw [if_neg (by decide : ¬ ('s' : Char) = '>')] at h
      have hlen := scanMid_length _ _ _ _ _ _ h
      simp at hlen
      omega
    · have hw' : wordChar prev = false := bool_eq_false hw
      have hsq : startsWithL srcQuote
          ('s' :: ('r' :: 'c' :: '=' :: '"' :: (u ++ '"' :: r))) = true :=
        startsWithL_self_append srcQuote (u ++ '"' :: r)
      have hsq' : startsWithL srcQuote
          ('s' :: ('r' :: 'c' :: '=' :: '"' :: (u' ++ '"' :: r'))) = true :=
        startsWithL_self_append srcQuote (u' ++ '"' :: r')
      simp only [hw', Bool.not_false, hsq, hsq', Bool.true_and, if_true] at h ⊢
      rw [show (('s' :: ('r' :: 'c' :: '=' :: '"' :: (u ++ '"' :: r))).drop 5)
        = u ++ '"' :: r from rfl] at h
      rw [show (('s' :: ('r' :: 'c' :: '=' :: '"' :: (u' ++ '"' :: r'))).drop 5)
        = u' ++ '"' :: r' from rfl]
      rw [takeUrl_closed u r hun huq] at h
      rw [takeUrl_closed u' r' hun' huq']
      have hMm : m = M := by
        have := congrArg (fun o => o.map fun q => q.1) h
        simpa using this
      rw [hMm]
  | cons c e₂ ih =>
    intro m prev u r M u' r' hun huq hun' huq' h
    rw [List.cons_append] at h ⊢
    rw [scanMid_cons] at h
    rw [scanMid_cons]
    by_cases hw : wordChar prev = true
    · simp only [hw, Bool.not_true, Bool.false_and, Bool.false_eq_true, if_false] at h ⊢
      by_cases hgt : c = '>'
      · rw [if_pos hgt] at h
        exact Option.noConfusion h
      · rw [if_neg hgt] at h
        rw [if_neg hgt]
        exact ih (m ++ [c]) c u r M u' r' hun huq hun' huq' h
    · have hw' : wordChar prev = false := bool_eq_false hw
      have hx : ∀ Z : List Char, c :: (e₂ ++ (srcQuote ++ Z)) = (c :: (e₂ ++ srcQuote)) ++ Z := by
        intro Z
        simp
      rw [hx (u ++ '"' :: r)] at h
      rw [hx (u' ++ '"' :: r')]
      have hlen5 : 5 ≤ (c :: (e₂ ++ srcQuote)).length := by
        simp [srcQuote]
      have hdropOld : ((c :: (e₂ ++ srcQuote)) ++ (u ++ '"' :: r)).drop 5 =
          (c :: (e₂ ++ srcQuote)).drop 5 ++ (u ++ '"' :: r) :=
        List.drop_append_of_le_length hlen5
      have hdropNew : ((c :: (e₂ ++ srcQuote)) ++ (u' ++ '"' :: r')).drop 5 =
          (c :: (e₂ ++ srcQuote)).drop 5 ++ (u' ++ '"' :: r') :=
        List.drop_append_of_le_length hlen5
      have hq5 : '"' ∈ (c :: (e₂ ++ srcQuote)).drop 5 := quote_mem_drop5 c e₂
      have hswin : startsWithL srcQuote ((c :: (e₂ ++ srcQuote)) ++ (u ++ '"' :: r)) =
          startsWithL srcQuote ((c :: (e₂ ++ srcQuote)) ++ (u' ++ '"' :: r')) :=
        startsWithL_stable srcQuote (c :: (e₂ ++ srcQuote)) _ _ (by simp [srcQuote])
      by_cases hcond : startsWithL srcQuote
          ((c :: (e₂ ++ srcQuote)) ++ (u ++ '"' :: r)) = true
      · rw [hcond] at hswin
        simp only [hw', Bool.not_false, hcond, ← hswin, Bool.true_and, if_true] at h ⊢
        rw [hdropOld] at h
        rw [hdropNew]
        cases htU : takeUrl ((c :: (e₂ ++ srcQuote)).drop 5 ++ (u ++ '"' :: r)) with
        | some q =>
          obtain ⟨url₀, rest₀⟩ := q
          rw [htU] at h
          have hMm : m = M := by
            have := congrArg (fun o => o.map fun q => q.1) h
            simpa using this
          have hu0 : url₀ = u := by
            have := congrArg (fun o => o.map fun q => q.2.1) h
            simpa using this
          have hr0 : rest₀ = r := by
            have := congrArg (fun o => o.map fun q => q.2.2) h
            simpa using this
          obtain ⟨heq, _, _⟩ := takeUrl_eq _ _ _ htU
          rw [hu0, hr0] at heq
          have hlen := congrArg List.length heq
          simp only [List.length_append, List.length_cons] at hlen
          have hne5 : (c :: (e₂ ++ srcQuote)).drop 5 ≠ [] := by
            intro hnil
            rw [hnil] at hq5
            simp at hq5
          have hpos : 0 < ((c :: (e₂ ++ srcQuote)).drop 5).length :=
            List.length_pos.mpr hne5
          omega
        | none =>
          have htU' : takeUrl ((c :: (e₂ ++ srcQuote)).drop 5 ++ (u' ++ '"' :: r')) = none := by
            have hiso := takeUrl_append ((c :: (e₂ ++ srcQuote)).drop 5)
              (u ++ '"' :: r) (u' ++ '"' :: r') hq5
            rw [htU] at hiso
            cases hnew : takeUrl ((c :: (e₂ ++ srcQuote)).drop 5 ++ (u' ++ '"' :: r')) with
            | none => rfl
            | some q2 =>
              rw [hnew] at hiso
              simp at hiso
          rw [htU] at h
          rw [htU']
          by_cases hgt : c = '>'
          · rw [if_pos hgt] at h
            exact Option.noConfusion h
          · rw [if_neg hgt] at h
            rw [if_neg hgt]
            exact ih (m ++ [c]) c u r M u' r' hun huq hun' huq' h
      · have hcondf : startsWithL srcQuote
            ((c :: (e₂ ++ srcQuote)) ++ (u ++ '"' :: r)) = false := bool_eq_false hcond
        rw [hcondf] at hswin
        simp only [hw', Bool.not_false, hcondf, ← hswin, Bool.true_and, Bool.and_false,
          Bool.false_eq_true, if_false] at h ⊢
        by_cases hgt : c = '>'
        · rw [if_pos hgt] at h
          exact Option.noConfusion h
        · rw [if_neg hgt] at h
          rw [if_neg hgt]
          exact ih (m ++ [c]) c u r M u' r' hun huq hun' huq' h


/-- If an anchored middle-scan succeeds on the rewritten continuation, it
also succeeds on the original one: the url slot after the common part is
clean in both, so success cannot depend on which url fills it.  The
hypothesis on the last character of the common part is the word boundary
in front of its trailing literal. -/
theorem scanMid_isSome_transfer (a : List Char) :
    ∀ (m : List Char) (prev : Char) (u r u' r' : List Char),
    u ≠ [] → '"' ∉ u → wordChar (a.getLastD prev) = false →
    (scanMid m prev (a ++ (srcQuote ++ (u' ++ '"' :: r')))).isSome = true →
    (scanMid m prev (a ++ (srcQuote ++ (u ++ '"' :: r)))).isSome = true := by
  induction a with
  | nil =>
    intro m prev u r u' r' hun huq hlast _
    rw [List.nil_append]
    rw [show srcQuote ++ (u ++ '"' :: r) =
      's' :: ('r' :: 'c' :: '=' :: '"' :: (u ++ '"' :: r)) from rfl]
    rw [scanMid_cons]
    have hw' : wordChar prev = false := hlast
    have hsq : startsWithL srcQuote
        ('s' :: ('r' :: 'c' :: '=' :: '"' :: (u ++ '"' :: r))) = true :=
      startsWithL_self_append srcQuote (u ++ '"' :: r)
    simp only [hw', Bool.not_false, hsq, Bool.true_and, if_true]
    rw [show (('s' :: ('r' :: 'c' :: '=' :: '"' :: (u ++ '"' :: r))).drop 5)
      = u ++ '"' :: r from rfl]
    rw [takeUrl_closed u r hun huq]
    rfl
  | cons c a₂ ih =>
    intro m prev u r u' r' hun huq hlast hsome
    rw [List.getLastD_cons] at hlast
    rw [List.cons_append] at hsome ⊢
    rw [scanMid_cons] at hsome
    rw [scanMid_cons]
    by_cases hw : wordChar prev = true
    · simp only [hw, Bool.not_true, Bool.false_and, Bool.false_eq_true, if_false] at hsome ⊢
      by_cases hgt : c = '>'
      · rw [if_pos hgt] at hsome
        simp at hsome
      · rw [if_neg hgt] at hsome
        rw [if_neg hgt]
        exact ih (m ++ [c]) c u r u' r' hun huq hlast hsome
    · have hw' : wordChar prev = false := bool_eq_false hw
      have hx : ∀ Z : List Char,
          c :: (a₂ ++ (srcQuote ++ Z)) = (c :: (a₂ ++ srcQuote)) ++ Z := by
        intro Z
        simp
      rw [hx (u' ++ '"' :: r')] at hsome
      rw [hx (u ++ '"' :: r)]
      have hlen5 : 5 ≤ (c :: (a₂ ++ srcQuote)).length := by
        simp [srcQuote]
      have hdropOld : ((c :: (a₂ ++ srcQuote)) ++ (u ++ '"' :: r)).drop 5 =
          (c :: (a₂ ++ srcQuote)).drop 5 ++ (u ++ '"' :: r) :=
        List.drop_append_of_le_length hlen5
      have hdropNew : ((c :: (a₂ ++ srcQuote)) ++ (u' ++ '"' :: r')).drop 5 =
          (c :: (a₂ ++ srcQuote)).drop 5 ++ (u' ++ '"' :: r') :=
        List.drop_append_of_le_length hlen5
      have hq5 : '"' ∈ (c :: (a₂ ++ srcQuote)).drop 5 := quote_mem_drop5 c a₂
      have hswin : startsWithL srcQuote ((c :: (a₂ ++ srcQuote)) ++ (u ++ '"' :: r)) =
          startsWithL srcQuote ((c :: (a₂ ++ srcQuote)) ++ (u' ++ '"' :: r')) :=
        startsWithL_stable srcQuote (c :: (a₂ ++ srcQuote)) _ _ (by simp [srcQuote])
      by_cases hcond : startsWithL srcQuote
          ((c :: (a₂ ++ srcQuote)) ++ (u ++ '"' :: r)) = true
      · rw [hcond] at hswin
        simp only [hw', Bool.not_false, hcond, ← hswin, Bool.true_and, if_true] at hsome ⊢
        rw [hdropNew] at hsome
        rw [hdropOld]
        cases htU : takeUrl ((c :: (a₂ ++ srcQuote)).drop 5 ++ (u ++ '"' :: r)) with
        | some q =>
          rfl
        | none =>
          have htU' : takeUrl ((c :: (a₂ ++ srcQuote)).drop 5 ++ (u' ++ '"' :: r')) = none := by
            have hiso := takeUrl_append ((c :: (a₂ ++ srcQuote)).drop 5)
              (u ++ '"' :: r) (u' ++ '"' :: r') hq5
            rw [htU] at hiso
            cases hnew : takeUrl ((c :: (a₂ ++ srcQuote)).drop 5 ++ (u' ++ '"' :: r')) with
            | none => rfl
            | some q2 =>
              rw [hnew] at hiso
              simp at hiso
          rw [htU'] at hsome
          by_cases hgt : c = '>'
          · rw [if_pos hgt] at hsome
            simp at hsome
          · rw [if_neg hgt] at hsome
            rw [if_neg hgt]
            exact ih (m ++ [c]) c u r u' r' hun huq hlast hsome
      · have hcondf : startsWithL srcQuote
            ((c :: (a₂ ++ srcQuote)) ++ (u ++ '"' :: r)) = false := bool_eq_false hcond
        rw [hcondf] at hswin
        simp only [hw', Bool.not_false, hcondf, ← hswin, Bool.true_and, Bool.and_false,
          Bool.false_eq_true, if_false] at hsome ⊢
        by_cases hgt : c = '>'
        · rw [if_pos hgt] at hsome
          simp at hsome
        · rw [if_neg hgt] at hsome
          rw [if_neg hgt]
          exact ih (m ++ [c]) c u r u' r' hun huq hlast hsome


theorem matchImg_cons (c : Char) (t : List Char) :
    matchImg ('<' :: 'i' :: 'm' :: 'g' :: c :: t) =
      if wordChar c || c == '>' then none
      else (scanMid [c] c t).map fun q => (imgLit ++ q.1 ++ srcQuote, q.2.1, q.2.2) := by
  rfl

/-- If a buffer of the form  middle ++ literal ++ url-slot  matches the
anchor pattern, the five pattern characters are an initial segment of the
middle (the literal cannot supply them, its first character being s). -/
theorem img_head_surgery (a t' Z : List Char) (c : Char) (hane : a ≠ [])
    (hwc : (wordChar c || c == '>') = false)
    (heq : a ++ (srcQuote ++ Z) = '<' :: 'i' :: 'm' :: 'g' :: c :: t') :
    ∃ a₂, a = '<' :: 'i' :: 'm' :: 'g' :: c :: a₂ ∧ t' = a₂ ++ (srcQuote ++ Z) := by
  cases a with
  | nil => exact absurd rfl hane
  | cons x1 a1 =>
    rw [List.cons_append] at heq
    injection heq with h1 heq
    subst h1
    cases a1 with
    | nil =>
      rw [List.nil_append] at heq
      injection heq with h2 _
      exact absurd h2 (by decide)
    | cons x2 a2 =>
      rw [List.cons_append] at heq
      injection heq with h2 heq
      subst h2
      cases a2 with
      | nil =>
        rw [List.nil_append] at heq
        injection heq with h3 _
        exact absurd h3 (by decide)
      | cons x3 a3 =>
        rw [List.cons_append] at heq
        injection heq with h3 heq
        subst h3
        cases a3 with
        | nil =>
          rw [List.nil_append] at heq
          injection heq with h4 _
          exact absurd h4 (by decide)
        | cons x4 a4 =>
          rw [List.cons_append] at heq
          injection heq with h4 heq
          subst h4
          cases a4 with
          | nil =>
            rw [List.nil_append] at heq
            injection heq with h5 _
            rw [← h5] at hwc
            exact absurd hwc (by decide)
          | cons x5 a5 =>
            rw [List.cons_append] at heq
            injection heq with h5 heq
            subst h5
            exact ⟨a5, rfl, heq.symm⟩

/-- Replacing the url group of an anchored match by another non-empty
quote-free url yields the anchored match with the same group 1. -/
theorem matchImg_swap (g u r u' r' : List Char)
    (h : matchImg (g ++ (u ++ '"' :: r)) = some (g, u, r))
    (hun' : u' ≠ []) (huq' : '"' ∉ u') :
    matchImg (g ++ (u' ++ '"' :: r')) = some (g, u', r') := by
  obtain ⟨m, hmne, hg, _, hun, huq, hml⟩ := matchImg_eq _ g u r h
  cases m with
  | nil => exact absurd rfl hmne
  | cons c e₂ =>
    have hstr : ∀ Z : List Char, g ++ Z =
        '<' :: 'i' :: 'm' :: 'g' :: c :: (e₂ ++ (srcQuote ++ Z)) := by
      intro Z
      rw [hg]
      simp [imgLit]
    rw [hstr (u ++ '"' :: r)] at h
    rw [hstr (u' ++ '"' :: r')]
    rw [matchImg_cons] at h
    rw [matchImg_cons]
    by_cases hwc : (wordChar c || c == '>') = true
    · rw [if_pos hwc] at h
      exact Option.noConfusion h
    · rw [if_neg hwc] at h
      rw [if_neg hwc]
      rw [Option.map_eq_some'] at h
      obtain ⟨⟨M, u₂, r₂⟩, hsm, heq⟩ := h
      rw [Prod.mk.injEq, Prod.mk.injEq] at heq
      obtain ⟨hgM, hu₂, hr₂⟩ := heq
      have hu₂' : u₂ = u := hu₂
      have hr₂' : r₂ = r := hr₂
      rw [hu₂', hr₂'] at hsm
      have hgM' : imgLit ++ M ++ srcQuote = g := hgM
      have hM : M = c :: e₂ := by
        rw [hg] at hgM'
        have h1 : imgLit ++ M = imgLit ++ (c :: e₂) :=
          List.append_inj_left' hgM' rfl
        exact List.append_cancel_left h1
      rw [hM] at hsm
      have hsm' := scanMid_swap e₂ [c] c u r (c :: e₂) u' r' hun huq hun' huq' hsm
      rw [hsm']
      rw [Option.map_some']
      rw [hg]

/-- A successful anchored match on the rewritten string implies one on
the original string (transfer of match existence for anchors strictly
inside the unmatched leading segment). -/
theorem matchImg_isSome_transfer (a u r u' r' : List Char)
    (hun : u ≠ []) (huq : '"' ∉ u) (hane : a ≠ [])
    (hlast : ∀ d, wordChar (a.getLastD d) = false)
    (hsome : (matchImg (a ++ (srcQuote ++ (u' ++ '"' :: r')))).isSome = true) :
    (matchImg (a ++ (srcQuote ++ (u ++ '"' :: r)))).isSome = true := by
  unfold matchImg at hsome
  split at hsome
  case h_2 => simp at hsome
  case h_1 t heq =>
    cases t with
    | nil => simp at hsome
    | cons c t' =>
      dsimp only at hsome
      by_cases hwc : (wordChar c || c == '>') = true
      · rw [if_pos hwc] at hsome
        simp at hsome
      · rw [if_neg hwc] at hsome
        rw [Option.isSome_map'] at hsome
        obtain ⟨a₂, ha, ht'⟩ :=
          img_head_surgery a t' (u' ++ '"' :: r') c hane (bool_eq_false hwc) heq
        rw [ht'] at hsome
        have hl : wordChar (a₂.getLastD c) = false := by
          have h0 := hlast 'x'
          rw [ha] at h0
          rw [show ('<' :: 'i' :: 'm' :: 'g' :: c :: a₂ : List Char) =
            ['<', 'i', 'm', 'g', c] ++ a₂ from rfl] at h0
          rw [getLastD_append] at h0
          simpa only [List.getLastD_cons, List.getLastD_nil] using h0
        have hold := scanMid_isSome_transfer a₂ [c] c u r u' r' hun huq hl hsome
        rw [show a ++ (srcQuote ++ (u ++ '"' :: r)) =
          '<' :: 'i' :: 'm' :: 'g' :: c :: (a₂ ++ (srcQuote ++ (u ++ '"' :: r))) from by
            rw [ha]; simp]
        rw [matchImg_cons, if_neg hwc, Option.isSome_map']
        exact hold

theorem findImgMatch_of_matchImg (s g u r : List Char)
    (h : matchImg s = some (g, u, r)) :
    findImgMatch s = some ([], g, u, r) := by
  cases s with
  | nil =>
    rw [show matchImg [] = none from rfl] at h
    exact Option.noConfusion h
  | cons c t =>
    rw [findImgMatch, h]

theorem findImgMatch_build (p : List Char) :
    ∀ (G g u r : List Char),
    (∀ i, i < p.length → matchImg ((p ++ G).drop i) = none) →
    matchImg G = some (g, u, r) →
    findImgMatch (p ++ G) = some (p, g, u, r) := by
  induction p with
  | nil =>
    intro G g u r _ hmatch
    rw [List.nil_append]
    exact findImgMatch_of_matchImg G g u r hmatch
  | cons c p₂ ih =>
    intro G g u r hnone hmatch
    rw [List.cons_append]
    rw [findImgMatch]
    have h0 : matchImg (c :: (p₂ ++ G)) = none := by
      have h1 := hnone 0 (by simp)
      simpa using h1
    rw [h0]
    have hrest := ih G g u r (fun i hi => by
      have h2 := hnone (i + 1) (by simp only [List.length_cons]; omega)
      simpa using h2) hmatch
    rw [hrest]
    rfl


/-- The central transfer: replacing the url group of the leftmost match
(and everything after it) by a non-empty quote-free string yields a
buffer whose leftmost match has the same unmatched leading segment and
the same group 1, capturing the new url. -/
theorem findImgMatch_swap (html p g u r u' r' : List Char)
    (hfind : findImgMatch html = some (p, g, u, r))
    (hun' : u' ≠ []) (huq' : '"' ∉ u') :
    findImgMatch (p ++ (g ++ (u' ++ '"' :: r'))) = some (p, g, u', r') := by
  obtain ⟨hhtml, hnone, hmatch⟩ := findImgMatch_eq html p g u r hfind
  obtain ⟨m, hmne, hg, _, hun, huq, hml⟩ := matchImg_eq _ g u r hmatch
  have hmatch' : matchImg (g ++ (u' ++ '"' :: r')) = some (g, u', r') := by
    apply matchImg_swap g u r u' r' ?_ hun' huq'
    rw [show g ++ (u ++ '"' :: r) = g ++ u ++ '"' :: r from by simp]
    exact hmatch
  have hshape : ∀ Z : List Char, g ++ Z = (imgLit ++ m) ++ (srcQuote ++ Z) := by
    intro Z
    rw [hg]
    simp
  have haid : ∀ i (ZZ : List Char), (p.drop i) ++ (g ++ ZZ) =
      ((p.drop i) ++ (imgLit ++ m)) ++ (srcQuote ++ ZZ) := by
    intro i ZZ
    rw [hshape ZZ]
    simp
  have halast : ∀ i d, wordChar (((p.drop i) ++ (imgLit ++ m)).getLastD d) = false := by
    intro i d
    rw [getLastD_append, getLastD_append]
    exact hml _
  have hane : ∀ i, (p.drop i) ++ (imgLit ++ m) ≠ [] := by
    intro i hnil
    have := congrArg List.length hnil
    simp [imgLit] at this
  have hnone' : ∀ i, i < p.length →
      matchImg ((p ++ (g ++ (u' ++ '"' :: r'))).drop i) = none := by
    intro i hi
    rw [List.drop_append_of_le_length (Nat.le_of_lt hi)]
    cases hM : matchImg ((p.drop i) ++ (g ++ (u' ++ '"' :: r'))) with
    | none => rfl
    | some q =>
      exfalso
      have hnew : (matchImg (((p.drop i) ++ (imgLit ++ m)) ++
          (srcQuote ++ (u' ++ '"' :: r')))).isSome = true := by
        rw [← haid i (u' ++ '"' :: r'), hM]
        rfl
      have hold := matchImg_isSome_transfer ((p.drop i) ++ (imgLit ++ m)) u r u' r'
        hun huq (hane i) (halast i) hnew
      rw [← haid i (u ++ '"' :: r)] at hold
      have holdn := hnone i hi
      rw [show p ++ g ++ u ++ '"' :: r = p ++ (g ++ (u ++ '"' :: r)) from by simp] at holdn
      rw [List.drop_append_of_le_length (Nat.le_of_lt hi)] at holdn
      rw [holdn] at hold
      exact Bool.noConfusion hold
  exact findImgMatch_build p (g ++ (u' ++ '"' :: r')) g u' r' hnone' hmatch'


/-- Values the rewrite itself ever stores in the cache: the empty string,
or a data URI — quote-free and not http(s)-schemed. -/
def GoodVal (v : List Char) : Prop :=
  v = [] ∨ ('"' ∉ v ∧ (startsWithL httpLit v || startsWithL httpsLit v) = false)

/-- A cache all of whose values could have been produced by the rewrite. -/
def GoodCache (c : Cache) : Prop := ∀ kv ∈ c, GoodVal kv.2

theorem dataURI_facts (ct : String) (data : List Nat) :
    (dataLit ++ (imageContentType ct).data ++ b64SepLit ++ base64Encode data ≠ []) ∧
    ('"' ∉ dataLit ++ (imageContentType ct).data ++ b64SepLit ++ base64Encode data) ∧
    ((startsWithL httpLit (dataLit ++ (imageContentType ct).data ++ b64SepLit ++
        base64Encode data) ||
      startsWithL httpsLit (dataLit ++ (imageContentType ct).data ++ b64SepLit ++
        base64Encode data)) = false) := by
  have hassoc : dataLit ++ (imageContentType ct).data ++ b64SepLit ++ base64Encode data =
      'd' :: ("ata:".data ++ ((imageContentType ct).data ++ (b64SepLit ++
        base64Encode data))) := by
    rw [show (dataLit : List Char) = 'd' :: "ata:".data from rfl]
    simp
  refine ⟨?_, ?_, ?_⟩
  · rw [hassoc]
    simp
  · intro hmem
    simp only [List.mem_append] at hmem
    rcases hmem with ((hc | hc) | hc) | hc
    · revert hc; rw [show (dataLit : List Char) = "data:".data from rfl]; decide
    · exact imageContentType_no_quote ct hc
    · revert hc; rw [show (b64SepLit : List Char) = ";base64,".data from rfl]; decide
    · exact base64Encode_no_quote data hc
  · rw [hassoc]
    rw [show (httpLit : List Char) = 'h' :: "ttp://".data from rfl]
    rw [show (httpsLit : List Char) = 'h' :: "ttps://".data from rfl]
    rw [startsWithL_ne_head 'h' 'd' _ _ (by decide),
      startsWithL_ne_head 'h' 'd' _ _ (by decide)]
    rfl

/-- `processMatch` only ever inserts good values. -/
theorem processMatch_good (f : FetchFn) (cache : Cache) (g u : List Char)
    (hgood : GoodCache cache) : GoodCache (processMatch f cache g u).cache := by
  by_cases hh : (startsWithL httpLit u || startsWithL httpsLit u) = true
  · cases hm : lookupCache cache u with
    | some d =>
      rw [processMatch_cached f cache g u d hh hm]
      by_cases hd : d = []
      · rw [if_pos hd]; exact hgood
      · rw [if_neg hd]; exact hgood
    | none =>
      have hins : ∀ w : List Char, GoodVal w → GoodCache (insertCache cache u w) := by
        intro w hw kv hkv
        rcases List.mem_cons.mp hkv with h1 | h1
        · rw [h1]; exact hw
        · exact hgood kv h1
      cases hf : f u with
      | none =>
        rw [processMatch_fetch_err f cache g u hh hm hf]
        exact hins [] (Or.inl rfl)
      | some q =>
        obtain ⟨data, ct⟩ := q
        by_cases hd : data = []
        · subst hd
          rw [processMatch_fetch_empty f cache g u ct hh hm hf]
          exact hins [] (Or.inl rfl)
        · rw [processMatch_fetch_ok f cache g u data ct hh hm hf hd]
          obtain ⟨_, hq, hnh⟩ := dataURI_facts ct data
          exact hins _ (Or.inr ⟨hq, hnh⟩)
  · rw [processMatch_not_http f cache g u (bool_eq_false hh)]
    exact hgood

/-- The rewrite preserves cache goodness. -/
theorem inline_good (f : FetchFn) :
    ∀ n (html : List Char), html.length ≤ n → ∀ cache : Cache, GoodCache cache →
      GoodCache (InlineExternalImages f html cache).cache := by
  intro n
  induction n with
  | zero =>
    intro html hlen cache hgood
    have hnil : html = [] := List.length_eq_zero.mp (Nat.le_zero.mp hlen)
    subst hnil
    rw [InlineExternalImages_none f [] cache rfl]
    exact hgood
  | succ n ih =>
    intro html hlen cache hgood
    cases hfind : findImgMatch html with
    | none =>
      rw [InlineExternalImages_none f html cache hfind]
      exact hgood
    | some q =>
      obtain ⟨p, g, u, r⟩ := q
      have hrlen : r.length ≤ n :=
        Nat.lt_succ_iff.mp (Nat.lt_of_lt_of_le (findImgMatch_shrink html p g u r hfind) hlen)
      rw [InlineExternalImages_some f html cache p g u r hfind]
      exact ih r hrlen _ (processMatch_good f cache g u hgood)

/-- The fixpoint: rewritten output, together with its final cache, is
left exactly as it is by a second run, which fetches nothing. -/
theorem inline_fixpoint_aux (f : FetchFn) :
    ∀ n (html : List Char), html.length ≤ n → ∀ cache : Cache, GoodCache cache →
      InlineExternalImages f (InlineExternalImages f html cache).out
          (InlineExternalImages f html cache).cache =
        ⟨(InlineExternalImages f html cache).out,
          (InlineExternalImages f html cache).cache, []⟩ := by
  intro n
  induction n with
  | zero =>
    intro html hlen cache _
    have hnil : html = [] := List.length_eq_zero.mp (Nat.le_zero.mp hlen)
    subst hnil
    rw [InlineExternalImages_none f [] cache rfl]
    exact InlineExternalImages_none f [] cache rfl
  | succ n ih =>
    intro html hlen cache hgood
    cases hfind : findImgMatch html with
    | none =>
      rw [InlineExternalImages_none f html cache hfind]
      exact InlineExternalImages_none f html cache hfind
    | some q =>
      obtain ⟨p, g, u, r⟩ := q
      have hrlen : r.length ≤ n :=
        Nat.lt_succ_iff.mp (Nat.lt_of_lt_of_le (findImgMatch_shrink html p g u r hfind) hlen)
      obtain ⟨_, _, hmatch⟩ := findImgMatch_eq html p g u r hfind
      obtain ⟨m, _, _, _, hun, huq, _⟩ := matchImg_eq _ g u r hmatch
      have hpres := (inline_inv_aux f n r hrlen (processMatch f cache g u).cache).1
      -- establish the replacement shape and the second-pass step
      have hKey : ∃ w : List Char, w ≠ [] ∧ '"' ∉ w ∧
          (processMatch f cache g u).rep = g ++ w ++ ['"'] ∧
          processMatch f
              (InlineExternalImages f r (processMatch f cache g u).cache).cache g w =
            ⟨g ++ w ++ ['"'],
              (InlineExternalImages f r (processMatch f cache g u).cache).cache, []⟩ := by
        by_cases hh : (startsWithL httpLit u || startsWithL httpsLit u) = true
        · cases hm : lookupCache cache u with
          | some d =>
            by_cases hd : d = []
            · subst hd
              refine ⟨u, hun, huq, ?_, ?_⟩
              · rw [processMatch_cached f cache g u [] hh hm, if_pos rfl]
              · have hpers : lookupCache
                    (InlineExternalImages f r (processMatch f cache g u).cache).cache u =
                    some [] := by
                  apply hpres
                  rw [processMatch_cached f cache g u [] hh hm, if_pos rfl]
                  exact hm
                rw [processMatch_cached f _ g u [] hh hpers, if_pos rfl]
            · have hgv : GoodVal d := by
                obtain ⟨k, hk⟩ := lookupCache_mem cache u d hm
                exact hgood (k, d) hk
              rcases hgv with hgv | ⟨hgq, hgnh⟩
              · exact absurd hgv hd
              · refine ⟨d, hd, hgq, ?_, ?_⟩
                · rw [processMatch_cached f cache g u d hh hm, if_neg hd]
                · exact processMatch_not_http f _ g d hgnh
          | none =>
            cases hf : f u with
            | none =>
              refine ⟨u, hun, huq, ?_, ?_⟩
              · rw [processMatch_fetch_err f cache g u hh hm hf]
              · have hpers : lookupCache
                    (InlineExternalImages f r (processMatch f cache g u).cache).cache u =
                    some [] := by
                  apply hpres
                  rw [processMatch_fetch_err f cache g u hh hm hf]
                  rw [show (insertCache cache u [] : Cache) = (u, []) :: cache from rfl]
                  rw [lookupCache_cons, if_pos rfl]
                rw [processMatch_cached f _ g u [] hh hpers, if_pos rfl]
            | some q2 =>
              obtain ⟨data, ct⟩ := q2
              by_cases hd : data = []
              · subst hd
                refine ⟨u, hun, huq, ?_, ?_⟩
                · rw [processMatch_fetch_empty f cache g u ct hh hm hf]
                · have hpers : lookupCache
                      (InlineExternalImages f r (processMatch f cache g u).cache).cache u =
                      some [] := by
                    apply hpres
                    rw [processMatch_fetch_empty f cache g u ct hh hm hf]
                    rw [show (insertCache cache u [] : Cache) = (u, []) :: cache from rfl]
                    rw [lookupCache_cons, if_pos rfl]
                  rw [processMatch_cached f _ g u [] hh hpers, if_pos rfl]
              · obtain ⟨hwne, hwq, hwnh⟩ := dataURI_facts ct data
                refine ⟨dataLit ++ (imageContentType ct).data ++ b64SepLit ++
                  base64Encode data, hwne, hwq, ?_, ?_⟩
                · rw [processMatch_fetch_ok f cache g u data ct hh hm hf hd]
                · exact processMatch_not_http f _ g _ hwnh
        · refine ⟨u, hun, huq, ?_, ?_⟩
          · rw [processMatch_not_http f cache g u (bool_eq_false hh)]
          · exact processMatch_not_http f _ g u (bool_eq_false hh)
      obtain ⟨w, hwne, hwq, hrep, hsecond⟩ := hKey
      rw [InlineExternalImages_some f html cache p g u r hfind]
      dsimp only
      rw [hrep]
      have hshape : p ++ (g ++ w ++ ['"']) ++
          (InlineExternalImages f r (processMatch f cache g u).cache).out =
          p ++ (g ++ (w ++ '"' ::
            (InlineExternalImages f r (processMatch f cache g u).cache).out)) := by
        simp
      rw [hshape]
      have hfind2 : findImgMatch (p ++ (g ++ (w ++ '"' ::
          (InlineExternalImages f r (processMatch f cache g u).cache).out))) =
          some (p, g, w,
            (InlineExternalImages f r (processMatch f cache g u).cache).out) :=
        findImgMatch_swap html p g u r w _ hfind hwne hwq
      rw [InlineExternalImages_some f _ _ p g w _ hfind2]
      rw [hsecond]
      dsimp only
      have hinner := ih r hrlen (processMatch f cache g u).cache
        (processMatch_good f cache g u hgood)
      rw [hinner]
      dsimp only
      simp


/-- Claim C4: image resolution is idempotent.  Running the resolver again
over its own output (with the caller-owned cache it produced, starting
from any cache whose values the resolver itself could have stored — the
fresh empty cache in particular) changes nothing: a substituted data: URI
no longer matches the http(s) test, untouched srcs stay untouched, and
the second pass performs no fetch at all. -/
theorem claim_C4 (f : FetchFn) (html : List Char) (cache : Cache)
    (hgood : GoodCache cache) :
    (InlineExternalImages f (InlineExternalImages f html cache).out
        (InlineExternalImages f html cache).cache).out =
      (InlineExternalImages f html cache).out ∧
    (InlineExternalImages f (InlineExternalImages f html cache).out
        (InlineExternalImages f html cache).cache).cache =
      (InlineExternalImages f html cache).cache ∧
    (InlineExternalImages f (InlineExternalImages f html cache).out
        (InlineExternalImages f html cache).cache).fetched = [] := by
  have h := inline_fixpoint_aux f html.length html (Nat.le_refl _) cache hgood
  rw [h]
  exact ⟨rfl, rfl, rfl⟩

/-- Fetch oracle for the C4 witness: one URL succeeds, the rest fail. -/
def wFetch : FetchFn :=
  fun u => if u = "http://a.example.com/i.png".data then some ([1], "image/png") else none

/-- HTML input for the C4 witness: one resolvable image, one that fails,
one non-http src. -/
def wHtml : List Char :=
  "<p><img src=\"http://a.example.com/i.png\"><img src=\"http://boom/x\"><img src=\"cid:z\"></p>".data

/-- Witness for C4 at a concrete buffer, oracle and the empty cache. -/
theorem claim_C4_witness :
    (InlineExternalImages wFetch (InlineExternalImages wFetch wHtml []).out
        (InlineExternalImages wFetch wHtml []).cache).out =
      (InlineExternalImages wFetch wHtml []).out ∧
    (InlineExternalImages wFetch (InlineExternalImages wFetch wHtml []).out
        (InlineExternalImages wFetch wHtml []).cache).cache =
      (InlineExternalImages wFetch wHtml []).cache ∧
    (InlineExternalImages wFetch (InlineExternalImages wFetch wHtml []).out
        (InlineExternalImages wFetch wHtml []).cache).fetched = [] :=
  claim_C4 wFetch wHtml [] (fun kv hkv => absurd hkv (List.not_mem_nil kv))

end Converter
